import Mathlib

/-!
# Offline store of the feature-store provider (`ff/serving/provider/postgres.go`)

A shallow embedding of the PostgreSQL offline store: the naming scheme, the
existence guards, the materialization and training-set builders, the typed
value codec and the two row iterators, followed by the properties proved
about them.

Conventions of the embedding.

* SQL identifiers, entities and JSON text are `String`s; the value of a Go
  `string` variable is a `GoString`, a sequence of bytes.
* A Go function that may panic returns `Except Panic _`; a Go `error` result
  is an `Option Error` or the error side of an `Except Error _`.
* The backend is an explicit state (`Conn`): its catalog of tables, and the
  statements executed against it.  A statement is a value of `Stmt`, built by
  the store exactly as the Go code assembles its text, and `Conn.Exec` gives
  it the meaning PostgreSQL gives to that text.
* A JSON document is its parse tree (`Json`); `encoding/json` is modelled on
  trees: what `json.Marshal` writes for a value and what `json.Unmarshal`
  reads from a document, numbers being read as `float64`.
* Cursors (`db.Rows`) are explicit states: the rows still to be fetched.

`Write`, `GetMaterialization`, `NumRows`, `IterateSegment` and
`GetTrainingSet` are not embedded: no property below is about them.
-/

namespace Provider

/-! ## Data model -/

/-- Modelled from the spec: the declaration of the resource kinds is not in
`postgres.go`; the spec lists `enum{Feature, Label, TrainingSet}`. -/
inductive OfflineResourceType where
  | Feature
  | Label
  | TrainingSet
  deriving DecidableEq, Repr

/-- Modelled from the spec: `ResourceID` is declared outside `postgres.go`;
the spec gives `{Name: string, Variant: string, Type: enum}` (the field
`Type` is spelled `Type_`, `Type` being reserved). -/
structure ResourceID where
  Name : String
  Variant : String
  Type_ : OfflineResourceType
  deriving DecidableEq, Repr

/-- A `MaterializationID` is a string derived from the feature name. -/
abbrev MaterializationID := String

/-! ## Naming scheme -/

/-- `getResourceTableName`: `"featureform_resource_%s_%s_%s"` applied to the
kind (`feature` when the type is `Feature`, `label` otherwise), the name and
the variant. -/
def getResourceTableName (id : ResourceID) : String :=
  let idType : String := if id.Type_ = OfflineResourceType.Feature then "feature" else "label"
  "featureform_resource_" ++ idType ++ "_" ++ id.Name ++ "_" ++ id.Variant

/-- `getMaterializationTableName`: `"featureform_materialization_%s"`. -/
def getMaterializationTableName (ftID : MaterializationID) : String :=
  "featureform_materialization_" ++ ftID

/-- `getTrainingSetName`: `"featureform_trainingset_%s_%s"`. -/
def getTrainingSetName (id : ResourceID) : String :=
  "featureform_trainingset_" ++ id.Name ++ "_" ++ id.Variant

/-! ## Errors -/

/-- The errors the store returns: the typed existence errors, the error of
a failed identifier check, `errors.New` messages, and what the driver
reports (`ErrNoRows`, or a failure of the backend). -/
inductive Error where
  | TableAlreadyExists (name variant : String)
  | TableNotFound (name variant : String)
  | MaterializationNotFound (id : MaterializationID)
  | TrainingSetNotFound (id : ResourceID)
  | InvalidResourceID
  | New (text : String)
  | ErrNoRows
  | backend (text : String)
  | json (text : String)
  deriving DecidableEq, Repr

/-- Modelled from the spec: `ResourceID.check(expected, others...)` is defined
outside `postgres.go`; per the spec an operation on a ResourceID of the wrong
kind fails with `InvalidResourceID`, so the check passes exactly when the
identifier's type is one of the listed types. -/
def ResourceID.check (id : ResourceID) (expectedType : OfflineResourceType)
    (otherTypes : List OfflineResourceType) : Option Error :=
  if id.Type_ ∈ expectedType :: otherTypes then none else some Error.InvalidResourceID

/-- JSON documents: the content of a `JSONB` cell and of the byte slices the
codec produces and reads.  A document is represented by its parse tree;
numbers carry the exact value of their decimal text. -/
inductive Json where
  | null
  | bool (b : Bool)
  | num (q : ℚ)
  | str (s : String)
  | arr (xs : List Json)
  | obj (kvs : List (String × Json))

/-! ## The backend -/

/-- Instants (`timestamptz`), as a count of microseconds. -/
abbrev Timestamp := Int

/-- A row of an `(entity VARCHAR, value JSONB, ts timestamptz)` table.  Rows
reach such a table through `Write` or through the builders only, which bind a
string, a document and an instant: no field of a stored row is NULL. -/
structure ResourceRow where
  entity : String
  value : Json
  ts : Timestamp

/-- A cell of a general table. -/
inductive Cell where
  | null
  | text (s : String)
  | jsonb (j : Json)
  | timestamptz (t : Timestamp)

/-- The tables of the backend: `(entity, value, ts)` tables (resource tables,
created with `UNIQUE (entity, ts)`, and materializations, created without),
and tables of named columns (training sets). -/
inductive Table where
  | resource (unique : Bool) (rows : List ResourceRow)
  | wide (columns : List String) (rows : List (List Cell))

/-- A quoted identifier: `sanitize` double-quotes its argument, and the quoted
text denotes that very name to the backend (names are taken to hold no NUL
and to fit the backend's limit on the length of an identifier). -/
structure Ident where
  name : String
  deriving DecidableEq, Repr

/-- `sanitize`: `db.Identifier{ident}.Sanitize()`. -/
def sanitize (ident : String) : Ident := ⟨ident⟩

/-- The FROM clause `CreateTrainingSet` assembles, one constructor per piece
of text it formats:
`label t` is `" (SELECT entity, value , ts from t ) l "`;
`leftJoinLateral q t n` is `q` followed by
`"LEFT JOIN LATERAL (SELECT entity , value as t, ts  FROM t WHERE
entity=l.entity and ts <= l.ts ORDER BY ts desc LIMIT 1) a on a.entity=l.entity "`,
where `a` is the alias `t<n>` (the text names the table twice, as the name
of the value column and as the table read, and the alias twice);
`close q` is `q` followed by `" )"`. -/
inductive FromClause where
  | label (table : Ident)
  | leftJoinLateral (query : FromClause) (table : Ident) (joinAlias : Nat)
  | close (query : FromClause)

/-- The statements the store executes, one constructor per statement text:
* `createResourceTable t`:
  `CREATE TABLE t (entity VARCHAR, value JSONB, ts timestamptz, UNIQUE (entity, ts))`;
* `createEmptyCopy m r`:
  `CREATE TABLE IF NOT EXISTS m AS (SELECT entity, value, ts FROM r WHERE 1=2)`;
* `insertLatest m r`:
  `INSERT INTO m SELECT entity, value, ts FROM (SELECT entity, ts, value,
  row_number() OVER (PARTITION BY entity ORDER BY ts desc) AS rn FROM r) t WHERE rn=1`;
* `createTrainingSet t cols q`:
  `CREATE TABLE t AS (SELECT cols, l.value as label FROM q `. -/
inductive Stmt where
  | createResourceTable (table : Ident)
  | createEmptyCopy (table source : Ident)
  | insertLatest (table source : Ident)
  | createTrainingSet (table : Ident) (columns : List Ident) (query : FromClause)

/-- The connection pool together with the database behind it: the catalog
(each table under its name), a failure of the connection if there is one
(every round trip then fails with it), and the statements sent through
`Exec` so far. -/
structure Conn where
  tables : List (String × Table)
  fault : Option String
  executed : List Stmt

/-- The table registered under a name. -/
def Conn.lookup (c : Conn) (name : String) : Option Table :=
  c.tables.lookup name

/-- Registers a new table. -/
def Conn.create (c : Conn) (name : String) (t : Table) : Conn :=
  { c with tables := c.tables ++ [(name, t)] }

/-- Replaces the table registered under a name. -/
def Conn.replace (c : Conn) (name : String) (t : Table) : Conn :=
  { c with tables := c.tables.map (fun e => if e.1 = name then (name, t) else e) }

/-- `QueryRow("SELECT 1 FROM information_schema.tables WHERE table_name=$1",
name).Scan(&n)`: the scanned value, `ErrNoRows` when the catalog has no such
table, the failure of the connection when there is one. -/
def Conn.scanTableExists (c : Conn) (tableName : String) : Except Error Int :=
  match c.fault with
  | some e => Except.error (Error.backend e)
  | none =>
    match c.lookup tableName with
    | some _ => Except.ok 1
    | none => Except.error Error.ErrNoRows

/-! ### Meaning of the queries -/

/-- `ORDER BY ts desc`. -/
def orderByTsDesc (rows : List ResourceRow) : List ResourceRow :=
  rows.insertionSort (fun a b => b.ts ≤ a.ts)

/-- The lateral subquery for the outer row `l`:
`SELECT entity, value, ts FROM t WHERE entity=l.entity and ts <= l.ts
ORDER BY ts desc LIMIT 1`. -/
def lateralSelect (t : List ResourceRow) (l : ResourceRow) : List ResourceRow :=
  (orderByTsDesc (t.filter (fun r => decide (r.entity = l.entity ∧ r.ts ≤ l.ts)))).take 1

/-- A lateral item joined to `l`: its alias `t<n>` and the name of its value
column. -/
structure JoinItem where
  joinAlias : Nat
  column : String

/-- A row of the join: the row of `l`, and per lateral item its row, or
`none` where the left join extends with NULLs. -/
abbrev JoinRow := ResourceRow × List (Option ResourceRow)

/-- The relation a FROM clause denotes, and whether its text has been closed
by a parenthesis. -/
structure JoinRel where
  items : List JoinItem
  rows : List JoinRow
  closed : Bool

/-- `rel LEFT JOIN LATERAL sub ON cond`: every row of the left side is kept,
once per matching row of the subquery evaluated for it, and once, extended
with NULLs, when no row matches. -/
def leftJoinLateralRows (rows : List JoinRow) (sub : ResourceRow → List ResourceRow)
    (cond : ResourceRow → ResourceRow → Bool) : List JoinRow :=
  rows.flatMap (fun lr =>
    match (sub lr.1).filter (cond lr.1) with
    | [] => [(lr.1, lr.2 ++ [none])]
    | m :: ms => (m :: ms).map (fun t => (lr.1, lr.2 ++ [some t])))

/-- The columns one lateral item contributes to a row. -/
def itemCells (item : JoinItem) : Option ResourceRow → List (String × Cell)
  | some t => [("entity", Cell.text t.entity), (item.column, Cell.jsonb t.value),
      ("ts", Cell.timestamptz t.ts)]
  | none => [("entity", Cell.null), (item.column, Cell.null), ("ts", Cell.null)]

/-- The names of the columns in scope of the select list, in FROM order. -/
def scopeNames (items : List JoinItem) : List String :=
  ["entity", "value", "ts"] ++ items.flatMap (fun item => ["entity", item.column, "ts"])

/-- The columns in scope of the select list for one row of the join. -/
def rowScope (items : List JoinItem) (row : JoinRow) : List (String × Cell) :=
  [("entity", Cell.text row.1.entity), ("value", Cell.jsonb row.1.value),
    ("ts", Cell.timestamptz row.1.ts)] ++ (List.zipWith itemCells items row.2).flatten

/-- `SELECT cols, l.value as label FROM rel`: an unqualified column must name
exactly one column in scope. -/
def selectColumns (rel : JoinRel) (columns : List Ident) : Except Error (List (List Cell)) :=
  if columns.all (fun c => decide ((scopeNames rel.items).count c.name = 1)) then
    Except.ok (rel.rows.map (fun row =>
      columns.map (fun c => ((rowScope rel.items row).lookup c.name).getD Cell.null)
        ++ [Cell.jsonb row.1.value]))
  else Except.error (Error.backend "column does not exist or is ambiguous")

/-- `row_number() OVER (PARTITION BY entity ORDER BY ts desc)`: the rows of
each entity, latest first, numbered from 1. -/
def rowNumberByEntity (rows : List ResourceRow) : List (ResourceRow × Nat) :=
  (rows.map (fun r => r.entity)).dedup.flatMap (fun e =>
    ((orderByTsDesc (rows.filter (fun r => decide (r.entity = e)))).enumFrom 1).map
      (fun p => (p.2, p.1)))

/-- `SELECT entity, value, ts FROM (... row_number() ... AS rn FROM r) t WHERE rn=1`. -/
def latestPerEntity (rows : List ResourceRow) : List ResourceRow :=
  ((rowNumberByEntity rows).filter (fun p => decide (p.2 = 1))).map Prod.fst

/-- Whether no two rows share `(entity, ts)`. -/
def uniqueEntityTs (rows : List ResourceRow) : Bool :=
  decide (rows.Pairwise (fun a b => ¬ (a.entity = b.entity ∧ a.ts = b.ts)))

/-- The relation of a FROM clause. -/
def Conn.evalFrom (c : Conn) : FromClause → Except Error JoinRel
  | FromClause.label t =>
    match c.lookup t.name with
    | some (Table.resource _ rows) =>
      Except.ok { items := [], rows := rows.map (fun r => (r, [])), closed := false }
    | some (Table.wide _ _) => Except.error (Error.backend "column \"entity\" does not exist")
    | none => Except.error (Error.backend "relation does not exist")
  | FromClause.leftJoinLateral q t n =>
    match c.evalFrom q with
    | Except.error e => Except.error e
    | Except.ok rel =>
      if rel.closed then Except.error (Error.backend "syntax error")
      else if n ∈ rel.items.map JoinItem.joinAlias then
        Except.error (Error.backend "table name specified more than once")
      else
        match c.lookup t.name with
        | some (Table.resource _ rows) =>
          Except.ok { items := rel.items ++ [{ joinAlias := n, column := t.name }],
                      rows := leftJoinLateralRows rel.rows (lateralSelect rows)
                        (fun l r => decide (r.entity = l.entity)),
                      closed := false }
        | some (Table.wide _ _) =>
          Except.error (Error.backend "column \"entity\" does not exist")
        | none => Except.error (Error.backend "relation does not exist")
  | FromClause.close q =>
    match c.evalFrom q with
    | Except.error e => Except.error e
    | Except.ok rel =>
      if rel.closed then Except.error (Error.backend "syntax error")
      else Except.ok { rel with closed := true }

/-- What a statement does to the catalog, or the error the backend reports. -/
def Conn.run (c : Conn) : Stmt → Except Error Conn
  | Stmt.createResourceTable t =>
    match c.lookup t.name with
    | some _ => Except.error (Error.backend "relation already exists")
    | none => Except.ok (c.create t.name (Table.resource true []))
  | Stmt.createEmptyCopy t src =>
    match c.lookup src.name with
    | some (Table.resource _ _) =>
      match c.lookup t.name with
      | some _ => Except.ok c
      | none => Except.ok (c.create t.name (Table.resource false []))
    | some (Table.wide _ _) => Except.error (Error.backend "column \"entity\" does not exist")
    | none => Except.error (Error.backend "relation does not exist")
  | Stmt.insertLatest t src =>
    match c.lookup src.name with
    | some (Table.resource _ rows) =>
      match c.lookup t.name with
      | some (Table.resource u old) =>
        if u && !uniqueEntityTs (old ++ latestPerEntity rows) then
          Except.error (Error.backend "duplicate key value violates unique constraint")
        else Except.ok (c.replace t.name (Table.resource u (old ++ latestPerEntity rows)))
      | some (Table.wide _ _) => Except.error (Error.backend "column is of another type")
      | none => Except.error (Error.backend "relation does not exist")
    | some (Table.wide _ _) => Except.error (Error.backend "column \"entity\" does not exist")
    | none => Except.error (Error.backend "relation does not exist")
  | Stmt.createTrainingSet t columns q =>
    match c.evalFrom q with
    | Except.error e => Except.error e
    | Except.ok rel =>
      if !rel.closed || columns.isEmpty then Except.error (Error.backend "syntax error")
      else
        match selectColumns rel columns with
        | Except.error e => Except.error e
        | Except.ok rows =>
          if !decide ((columns.map Ident.name ++ ["label"]).Nodup) then
            Except.error (Error.backend "column specified more than once")
          else
            match c.lookup t.name with
            | some _ => Except.error (Error.backend "relation already exists")
            | none =>
              Except.ok (c.create t.name (Table.wide (columns.map Ident.name ++ ["label"]) rows))

/-- `conn.Exec(ctx, stmt)`: the statement is sent; it fails with the failure
of the connection when there is one, and with the backend's error when it has
one, leaving the catalog as it was. -/
def Conn.Exec (c : Conn) (stmt : Stmt) : Option Error × Conn :=
  let sent : Conn := { c with executed := c.executed ++ [stmt] }
  match c.fault with
  | some e => (some (Error.backend e), sent)
  | none =>
    match sent.run stmt with
    | Except.error e => (some e, sent)
    | Except.ok c2 => (none, c2)

/-! ## The store -/

/-- The handle of a resource table (`postgresOfflineTable`). -/
structure postgresOfflineTable where
  name : String
  deriving DecidableEq, Repr

/-- The handle of a materialization (`postgresMaterialization`). -/
structure postgresMaterialization where
  id : MaterializationID
  tableName : String
  deriving DecidableEq, Repr

/-- Modelled from the spec: `TrainingSetDef` and its `check` are defined
outside `postgres.go`; the spec gives `{ID (Type=TrainingSet), Label
(Type=Label), Features: ordered sequence (Type=Feature)}` and validates
"Label set, Features non-empty". -/
structure TrainingSetDef where
  ID : ResourceID
  Label : ResourceID
  Features : List ResourceID

/-- Modelled from the spec: see `TrainingSetDef`. -/
def TrainingSetDef.check (d : TrainingSetDef) : Option Error :=
  match d.ID.check OfflineResourceType.TrainingSet [] with
  | some e => some e
  | none =>
    match d.Label.check OfflineResourceType.Label [] with
    | some e => some e
    | none =>
      if d.Features.isEmpty then some (Error.New "training set must have at least one feature")
      else if d.Features.all (fun f => (f.check OfflineResourceType.Feature []).isNone) then none
      else some Error.InvalidResourceID

/-- `tableExists`. -/
def tableExists (store : Conn) (id : ResourceID) : Except Error Bool :=
  let tableName : String :=
    if id.check OfflineResourceType.Feature [OfflineResourceType.Label] = none then
      getResourceTableName id
    else if id.check OfflineResourceType.TrainingSet [] = none then
      getTrainingSetName id
    else ""
  match store.scanTableExists tableName with
  | Except.error Error.ErrNoRows => Except.ok false
  | Except.error err => Except.error err
  | Except.ok _ => Except.ok true

/-- `newPostgresOfflineTable`. -/
def newPostgresOfflineTable (conn : Conn) (name : String) :
    Except Error postgresOfflineTable × Conn :=
  match conn.Exec (Stmt.createResourceTable (sanitize name)) with
  | (some err, conn2) => (Except.error err, conn2)
  | (none, conn2) => (Except.ok { name := name }, conn2)

/-- `CreateResourceTable`. -/
def CreateResourceTable (store : Conn) (id : ResourceID) :
    Except Error postgresOfflineTable × Conn :=
  match id.check OfflineResourceType.Feature [OfflineResourceType.Label] with
  | some err => (Except.error err, store)
  | none =>
    match tableExists store id with
    | Except.error err => (Except.error err, store)
    | Except.ok true => (Except.error (Error.TableAlreadyExists id.Name id.Variant), store)
    | Except.ok false => newPostgresOfflineTable store (getResourceTableName id)

/-- `getPostgresResourceTable`. -/
def getPostgresResourceTable (store : Conn) (id : ResourceID) :
    Except Error postgresOfflineTable :=
  match tableExists store id with
  | Except.error err => Except.error err
  | Except.ok false => Except.error (Error.TableNotFound id.Name id.Variant)
  | Except.ok true => Except.ok { name := getResourceTableName id }

/-- `GetResourceTable`. -/
def GetResourceTable (store : Conn) (id : ResourceID) : Except Error postgresOfflineTable :=
  getPostgresResourceTable store id

/-- `CreateMaterialization`. -/
def CreateMaterialization (store : Conn) (id : ResourceID) :
    Except Error postgresMaterialization × Conn :=
  if id.Type_ ≠ OfflineResourceType.Feature then
    (Except.error (Error.New "only features can be materialized"), store)
  else
    match getPostgresResourceTable store id with
    | Except.error err => (Except.error err, store)
    | Except.ok resTable =>
      let matID : MaterializationID := id.Name
      let matTableName := getMaterializationTableName matID
      let sanitizedTableName := sanitize matTableName
      let resTableName := sanitize resTable.name
      match store.Exec (Stmt.createEmptyCopy sanitizedTableName resTableName) with
      | (some err, store2) => (Except.error err, store2)
      | (none, store2) =>
        match store2.Exec (Stmt.insertLatest sanitizedTableName resTableName) with
        | (some err, store3) => (Except.error err, store3)
        | (none, store3) => (Except.ok { id := matID, tableName := matTableName }, store3)

/-- The loop of `CreateTrainingSet` over `def.Features`, from index `i` on:
each feature appends its sanitized resource table name to `columns` and a
lateral join to `query`; the last one closes the parenthesis. -/
def trainingSetLoop (len : Nat) : Nat → List ResourceID → List Ident × FromClause →
    List Ident × FromClause
  | _, [], acc => acc
  | i, feature :: rest, (columns, query) =>
    let resourceTableName := sanitize (getResourceTableName feature)
    let tableJoinAlias := i
    let columns := columns ++ [resourceTableName]
    let query := FromClause.leftJoinLateral query resourceTableName tableJoinAlias
    let query := if i = len - 1 then FromClause.close query else query
    trainingSetLoop len (i + 1) rest (columns, query)

/-- `CreateTrainingSet`. -/
def CreateTrainingSet (store : Conn) (d : TrainingSetDef) : Option Error × Conn :=
  match d.check with
  | some err => (some err, store)
  | none =>
    match getPostgresResourceTable store d.Label with
    | Except.error err => (some err, store)
    | Except.ok label =>
      let tableName := getTrainingSetName d.ID
      let built := trainingSetLoop d.Features.length 0 d.Features
        ([], FromClause.label (sanitize label.name))
      store.Exec (Stmt.createTrainingSet (sanitize tableName) built.1 built.2)

/-! ## Values of the codec -/

/-- The value of a Go `string`: a sequence of bytes, which need not be valid
UTF-8. -/
abbrev GoString := List UInt8

/-- `utf8.EncodeRune` of a Unicode scalar value. -/
def encodeRune (c : Char) : GoString :=
  let n := c.toNat
  if n < 0x80 then [UInt8.ofNat n]
  else if n < 0x800 then [UInt8.ofNat (0xC0 + n / 64), UInt8.ofNat (0x80 + n % 64)]
  else if n < 0x10000 then
    [UInt8.ofNat (0xE0 + n / 4096), UInt8.ofNat (0x80 + n / 64 % 64), UInt8.ofNat (0x80 + n % 64)]
  else
    [UInt8.ofNat (0xF0 + n / 262144), UInt8.ofNat (0x80 + n / 4096 % 64),
      UInt8.ofNat (0x80 + n / 64 % 64), UInt8.ofNat (0x80 + n % 64)]

/-- The bytes of a text: the Go string a string literal or a decoded JSON
string denotes. -/
def goString (s : String) : GoString := s.data.flatMap encodeRune

/-- `utf8.RuneError`, U+FFFD. -/
def RuneError : Char := Char.ofNat 0xFFFD

/-- Whether a byte is a continuation byte. -/
def isCont (b : Nat) : Bool := 0x80 ≤ b && b ≤ 0xBF

/-- `utf8.DecodeRune`: the first rune of the bytes and its width; bytes that
do not start a well-formed sequence (a stray or missing continuation byte, an
overlong form, a surrogate, a value past U+10FFFF) decode to `RuneError` with
width 1. -/
def decodeRune : GoString → Char × Nat
  | [] => (RuneError, 0)
  | b0 :: rest =>
    if b0.toNat < 0x80 then (Char.ofNat b0.toNat, 1)
    else if 0xC2 ≤ b0.toNat ∧ b0.toNat ≤ 0xDF then
      match rest with
      | b1 :: _ =>
        if isCont b1.toNat then
          (Char.ofNat ((b0.toNat - 0xC0) * 64 + (b1.toNat - 0x80)), 2)
        else (RuneError, 1)
      | _ => (RuneError, 1)
    else if 0xE0 ≤ b0.toNat ∧ b0.toNat ≤ 0xEF then
      match rest with
      | b1 :: b2 :: _ =>
        if (if b0.toNat = 0xE0 then 0xA0 else 0x80) ≤ b1.toNat ∧
            b1.toNat ≤ (if b0.toNat = 0xED then 0x9F else 0xBF) ∧ isCont b2.toNat then
          (Char.ofNat ((b0.toNat - 0xE0) * 4096 + (b1.toNat - 0x80) * 64 + (b2.toNat - 0x80)), 3)
        else (RuneError, 1)
      | _ => (RuneError, 1)
    else if 0xF0 ≤ b0.toNat ∧ b0.toNat ≤ 0xF4 then
      match rest with
      | b1 :: b2 :: b3 :: _ =>
        if (if b0.toNat = 0xF0 then 0x90 else 0x80) ≤ b1.toNat ∧
            b1.toNat ≤ (if b0.toNat = 0xF4 then 0x8F else 0xBF) ∧
            isCont b2.toNat ∧ isCont b3.toNat then
          (Char.ofNat ((b0.toNat - 0xF0) * 262144 + (b1.toNat - 0x80) * 4096 +
            (b2.toNat - 0x80) * 64 + (b3.toNat - 0x80)), 4)
        else (RuneError, 1)
      | _ => (RuneError, 1)
    else (RuneError, 1)

/-- The runes of a byte sequence, decoded one after the other; `fuel` bounds
the number of runes and the length of the sequence suffices. -/
def decodeRunesAux : Nat → GoString → List Char
  | 0, _ => []
  | _ + 1, [] => []
  | fuel + 1, b :: bs =>
    (decodeRune (b :: bs)).1 :: decodeRunesAux fuel ((b :: bs).drop (decodeRune (b :: bs)).2)

/-- The runes of a byte sequence. -/
def decodeRunes (bs : GoString) : List Char := decodeRunesAux bs.length bs

/-- The text `json.Marshal` writes for a Go string: the string "coerced to
valid UTF-8, replacing invalid bytes with the Unicode replacement rune". -/
def toValidUTF8 (s : GoString) : String := String.mk (decodeRunes s)

/-- Floating-point values (of either width), up to the sign of zero. -/
inductive GoFloat where
  | fin (q : ℚ)
  | inf (negative : Bool)
  | nan
  deriving DecidableEq

/-- The integer `e` with `2^e ≤ |q| < 2^(e+1)`, for `q ≠ 0`. -/
def floorLog2 (q : ℚ) : Int :=
  let c : Int := (Nat.log2 q.num.natAbs : Int) - (Nat.log2 q.den : Int)
  if (2 : ℚ) ^ c ≤ |q| then c else c - 1

/-- Rounding to the nearest integer, ties to even. -/
def roundHalfEven (r : ℚ) : Int :=
  let f := ⌊r⌋
  let d := r - f
  if d < 1 / 2 then f else if 1 / 2 < d then f + 1 else if f % 2 = 0 then f else f + 1

/-- Rounding of a number to the binary format with `prec` significant bits
and exponents from `emin` to `emax`, to nearest, ties to even; a result past
the largest finite value is an infinity. -/
def roundToFloat (prec : Nat) (emin emax : Int) (q : ℚ) : GoFloat :=
  if q = 0 then GoFloat.fin 0
  else
    let e := max (floorLog2 q) emin
    let ulp : ℚ := (2 : ℚ) ^ (e - ((prec : Int) - 1))
    let a : ℚ := (roundHalfEven (|q| / ulp) : ℚ) * ulp
    if (2 : ℚ) ^ (emax + 1) ≤ a then GoFloat.inf (decide (q < 0))
    else GoFloat.fin (if q < 0 then -a else a)

/-- Rounding to `float64`. -/
def roundFloat64 (q : ℚ) : GoFloat := roundToFloat 53 (-1022) 1023 q

/-- Rounding to `float32`. -/
def roundFloat32 (q : ℚ) : GoFloat := roundToFloat 24 (-126) 127 q

/-- The values an `interface{}` holds in this program: nil, the scalar
kinds of the codec, and what a JSON array or object decodes to
(`[]interface{}`, `map[string]interface{}`).  An integer kind carries its
value; a value of the kind lies in the range of the kind. -/
inductive GoValue where
  | nil
  | int (n : Int)
  | int8 (n : Int)
  | int16 (n : Int)
  | int32 (n : Int)
  | int64 (n : Int)
  | float32 (f : GoFloat)
  | float64 (f : GoFloat)
  | string (s : GoString)
  | bool (b : Bool)
  | slice (xs : List GoValue)
  | map (kvs : List (GoString × GoValue))

/-- A run-time panic. -/
inductive Panic where
  | interfaceConversion (wanted : String)
  | makeSliceLenOutOfRange
  deriving DecidableEq, Repr

/-- `fmt.Sprintf("%T", v)`. -/
def GoValue.typeName : GoValue → String
  | GoValue.nil => "<nil>"
  | GoValue.int _ => "int"
  | GoValue.int8 _ => "int8"
  | GoValue.int16 _ => "int16"
  | GoValue.int32 _ => "int32"
  | GoValue.int64 _ => "int64"
  | GoValue.float32 _ => "float32"
  | GoValue.float64 _ => "float64"
  | GoValue.string _ => "string"
  | GoValue.bool _ => "bool"
  | GoValue.slice _ => "[]interface {}"
  | GoValue.map _ => "map[string]interface {}"

/-- The value of the signed `bits`-bit integer with the low bits of `n`. -/
def wrapInt (bits : Nat) (n : Int) : Int :=
  (n + 2 ^ (bits - 1)) % 2 ^ bits - 2 ^ (bits - 1)

/-- The conversion `intN(f)` of a `float64`: the fraction is discarded
(truncation towards zero).  For a value the type cannot represent Go leaves
the result to the implementation; the low bits are kept here, and the least
value stands for a non-finite operand. -/
def floatToInt (bits : Nat) : GoFloat → Int
  | GoFloat.fin q => wrapInt bits (Int.tdiv q.num q.den)
  | _ => -(2 ^ (bits - 1))

/-- The conversion `float32(f)` of a `float64`. -/
def toFloat32 : GoFloat → GoFloat
  | GoFloat.fin q => roundFloat32 q
  | f => f

/-- `postgresTableItem`: the value of a resource and its type. -/
structure postgresTableItem where
  Value : GoValue
  ItemType : GoString

/-- The index expression `m[k]` on a `map[string]interface{}`: the zero value
`nil` for a missing key. -/
def mapIndex (kvs : List (GoString × GoValue)) (k : GoString) : GoValue :=
  match kvs.lookup k with
  | some v => v
  | none => GoValue.nil

mutual
/-- `json.Unmarshal` into an `interface{}`: numbers become `float64` (a
number past the range of `float64` is an error), strings Go strings, arrays
`[]interface{}`, objects `map[string]interface{}`. -/
def jsonToInterface : Json → Except Error GoValue
  | Json.null => Except.ok GoValue.nil
  | Json.bool b => Except.ok (GoValue.bool b)
  | Json.num q =>
    match roundFloat64 q with
    | GoFloat.fin x => Except.ok (GoValue.float64 (GoFloat.fin x))
    | _ => Except.error (Error.json "cannot unmarshal number into Go value of type float64")
  | Json.str s => Except.ok (GoValue.string (goString s))
  | Json.arr xs =>
    match jsonToInterfaceList xs with
    | Except.error e => Except.error e
    | Except.ok ys => Except.ok (GoValue.slice ys)
  | Json.obj kvs =>
    match jsonToInterfaceFields kvs with
    | Except.error e => Except.error e
    | Except.ok fields => Except.ok (GoValue.map fields)
/-- The elements of a decoded array. -/
def jsonToInterfaceList : List Json → Except Error (List GoValue)
  | [] => Except.ok []
  | x :: xs =>
    match jsonToInterface x with
    | Except.error e => Except.error e
    | Except.ok y =>
      match jsonToInterfaceList xs with
      | Except.error e => Except.error e
      | Except.ok ys => Except.ok (y :: ys)
/-- The entries of a decoded object; of two entries of one key the later
one counts. -/
def jsonToInterfaceFields : List (String × Json) → Except Error (List (GoString × GoValue))
  | [] => Except.ok []
  | (k, x) :: rest =>
    match jsonToInterface x with
    | Except.error e => Except.error e
    | Except.ok y =>
      match jsonToInterfaceFields rest with
      | Except.error e => Except.error e
      | Except.ok fields =>
        Except.ok (if (fields.lookup (goString k)).isSome then fields
          else (goString k, y) :: fields)
end

/-- The name of a struct field as keys are matched against it: Go accepts a
key equal to the name up to case (the names `value` and `type` have no letter
with a case variant outside ASCII). -/
def foldName (s : String) : String := String.mk (s.data.map Char.toLower)

/-- One member of a JSON object decoded into a `postgresTableItem`: a key that
matches `value` or `type` (exactly or up to case) sets that field, any other
key is skipped.  `Value` takes any JSON value; `ItemType` takes a string, is
left as it is by `null`, and any other value is an error. -/
def unmarshalField (item : postgresTableItem) (k : String) (x : Json) :
    Except Error postgresTableItem :=
  if foldName k = "value" then
    match jsonToInterface x with
    | Except.error e => Except.error e
    | Except.ok v => Except.ok { item with Value := v }
  else if foldName k = "type" then
    match x with
    | Json.str s => Except.ok { item with ItemType := goString s }
    | Json.null => Except.ok item
    | _ => Except.error
        (Error.json "cannot unmarshal into Go struct field postgresTableItem.type of type string")
  else Except.ok item

/-- The members of a JSON object decoded in order into a `postgresTableItem`. -/
def unmarshalFields : postgresTableItem → List (String × Json) → Except Error postgresTableItem
  | item, [] => Except.ok item
  | item, (k, x) :: rest =>
    match unmarshalField item k x with
    | Except.error e => Except.error e
    | Except.ok item2 => unmarshalFields item2 rest

/-- `json.Unmarshal(v, &item)` for a zero `postgresTableItem`: an object sets
the fields its members name, `null` leaves the item as it is, and any other
document is an error. -/
def unmarshalItem : Json → Except Error postgresTableItem
  | Json.obj kvs => unmarshalFields { Value := GoValue.nil, ItemType := [] } kvs
  | Json.null => Except.ok { Value := GoValue.nil, ItemType := [] }
  | _ => Except.error (Error.json "cannot unmarshal into Go value of type postgresTableItem")

/-- The bytes of a JSON document, as a `[]byte` holds them: the document
they spell, or no bytes at all (a NULL column scans into a nil slice). -/
abbrev Bytes := Option Json

/-- `postgresFeatureIterator.deserialize` (and the identical
`postgresOfflineStore.deserialize`). -/
def deserialize (v : Bytes) : Except Error postgresTableItem :=
  match v with
  | none => Except.error (Error.json "unexpected end of JSON input")
  | some doc => unmarshalItem doc

mutual
/-- `json.Marshal` of an `interface{}`.  `fmtFloat bits q` is the number that
the shortest decimal text identifying the `bits`-bit float `q` spells
(`strconv`, which is not modelled); a non-finite float is an error. -/
def jsonMarshal (fmtFloat : Nat → ℚ → ℚ) : GoValue → Except Error Json
  | GoValue.nil => Except.ok Json.null
  | GoValue.int n => Except.ok (Json.num n)
  | GoValue.int8 n => Except.ok (Json.num n)
  | GoValue.int16 n => Except.ok (Json.num n)
  | GoValue.int32 n => Except.ok (Json.num n)
  | GoValue.int64 n => Except.ok (Json.num n)
  | GoValue.float32 (GoFloat.fin q) => Except.ok (Json.num (fmtFloat 32 q))
  | GoValue.float32 _ => Except.error (Error.json "unsupported value")
  | GoValue.float64 (GoFloat.fin q) => Except.ok (Json.num (fmtFloat 64 q))
  | GoValue.float64 _ => Except.error (Error.json "unsupported value")
  | GoValue.string s => Except.ok (Json.str (toValidUTF8 s))
  | GoValue.bool b => Except.ok (Json.bool b)
  | GoValue.slice xs =>
    match jsonMarshalList fmtFloat xs with
    | Except.error e => Except.error e
    | Except.ok ys => Except.ok (Json.arr ys)
  | GoValue.map kvs =>
    match jsonMarshalFields fmtFloat kvs with
    | Except.error e => Except.error e
    | Except.ok fields =>
      Except.ok (Json.obj ((fields.insertionSort
        (fun a b => ¬ (b.1.map UInt8.toNat < a.1.map UInt8.toNat))).map
        (fun f => (toValidUTF8 f.1, f.2))))
/-- The elements of an encoded slice. -/
def jsonMarshalList (fmtFloat : Nat → ℚ → ℚ) : List GoValue → Except Error (List Json)
  | [] => Except.ok []
  | x :: xs =>
    match jsonMarshal fmtFloat x with
    | Except.error e => Except.error e
    | Except.ok y =>
      match jsonMarshalList fmtFloat xs with
      | Except.error e => Except.error e
      | Except.ok ys => Except.ok (y :: ys)
/-- The entries of an encoded map. -/
def jsonMarshalFields (fmtFloat : Nat → ℚ → ℚ) :
    List (GoString × GoValue) → Except Error (List (GoString × Json))
  | [] => Except.ok []
  | (k, x) :: rest =>
    match jsonMarshal fmtFloat x with
    | Except.error e => Except.error e
    | Except.ok y =>
      match jsonMarshalFields fmtFloat rest with
      | Except.error e => Except.error e
      | Except.ok fields => Except.ok ((k, y) :: fields)
end

/-- `postgresOfflineTable.serialize`: the item of the value and its type name,
encoded as the object of its fields `value` and `type`. -/
def serialize (fmtFloat : Nat → ℚ → ℚ) (v : GoValue) : Except Error Json :=
  let item : postgresTableItem := { Value := v, ItemType := goString v.typeName }
  match jsonMarshal fmtFloat item.Value with
  | Except.error e => Except.error e
  | Except.ok value =>
    Except.ok (Json.obj [("value", value), ("type", Json.str (toValidUTF8 item.ItemType))])

/-- The type assertion `x.(float64)`. -/
def assertFloat64 : GoValue → Except Panic GoFloat
  | GoValue.float64 f => Except.ok f
  | _ => Except.error (Panic.interfaceConversion "float64")

/-- `castTableItemType` returns the value casted as its original type. -/
def castTableItemType (v : postgresTableItem) : Except Panic GoValue :=
  if v.ItemType = goString "int" then
    (assertFloat64 v.Value).map (fun f => GoValue.int (floatToInt 64 f))
  else if v.ItemType = goString "int8" then
    (assertFloat64 v.Value).map (fun f => GoValue.int8 (floatToInt 8 f))
  else if v.ItemType = goString "int16" then
    (assertFloat64 v.Value).map (fun f => GoValue.int16 (floatToInt 16 f))
  else if v.ItemType = goString "int32" then
    (assertFloat64 v.Value).map (fun f => GoValue.int32 (floatToInt 32 f))
  else if v.ItemType = goString "int64" then
    (assertFloat64 v.Value).map (fun f => GoValue.int64 (floatToInt 64 f))
  else if v.ItemType = goString "float32" then
    (assertFloat64 v.Value).map (fun f => GoValue.float32 (toFloat32 f))
  else if v.ItemType = goString "float64" then
    Except.ok v.Value
  else if v.ItemType = goString "string" then
    match v.Value with
    | GoValue.string s => Except.ok (GoValue.string s)
    | _ => Except.error (Panic.interfaceConversion "string")
  else if v.ItemType = goString "bool" then
    match v.Value with
    | GoValue.bool b => Except.ok (GoValue.bool b)
    | _ => Except.error (Panic.interfaceConversion "bool")
  else Except.ok v.Value

/-! ## Row iterators -/

/-- Modelled from the spec: `ResourceRecord` is declared outside
`postgres.go`; the spec gives `{Entity, Value: typed scalar, Timestamp}`. -/
structure ResourceRecord where
  Entity : String
  Value : GoValue
  TS : Timestamp

/-- A row as the cursor of `SELECT entity, value, ts::timestamptz` delivers
it; `none` is a NULL. -/
structure RawFeatureRow where
  entity : Option String
  value : Option Json
  ts : Option Timestamp

/-- The cursor (`db.Rows`) of a materialization segment: the rows not yet
fetched, the row fetched last, and whether the cursor is closed. -/
structure FeatureRows where
  pending : List RawFeatureRow
  current : Option RawFeatureRow
  closed : Bool

/-- `rows.Next()`: fetches the next row; past the last row it closes the
cursor and returns false. -/
def FeatureRows.Next (r : FeatureRows) : Bool × FeatureRows :=
  if r.closed then (false, r)
  else
    match r.pending with
    | [] => (false, { r with current := none, closed := true })
    | row :: rest => (true, { r with pending := rest, current := some row })

/-- `rows.Close()`. -/
def FeatureRows.Close (r : FeatureRows) : FeatureRows :=
  { r with current := none, closed := true }

/-- `rows.Scan(&rec.Entity, &value, &ts)`: a NULL does not scan into a
`string` or a `time.Time`; a NULL value scans into a nil byte slice. -/
def FeatureRows.Scan (r : FeatureRows) : Except Error (String × Bytes × Timestamp) :=
  match r.current with
  | none => Except.error (Error.backend "no row to scan")
  | some row =>
    match row.entity, row.ts with
    | some e, some t => Except.ok (e, row.value, t)
    | none, _ => Except.error (Error.backend "cannot scan NULL into *string")
    | _, none => Except.error (Error.backend "cannot scan NULL into *time.Time")

/-- `postgresFeatureIterator`. -/
structure postgresFeatureIterator where
  rows : FeatureRows
  err : Option Error
  currentValue : ResourceRecord

/-- `newPostgresFeatureIterator`. -/
def newPostgresFeatureIterator (rows : FeatureRows) : postgresFeatureIterator :=
  { rows := rows, err := none, currentValue := { Entity := "", Value := GoValue.nil, TS := 0 } }

/-- `postgresFeatureIterator.Next`; the instant of `ts.UTC()` is that of `ts`. -/
def postgresFeatureIterator.Next (iter : postgresFeatureIterator) :
    Except Panic (Bool × postgresFeatureIterator) :=
  match iter.rows.Next with
  | (false, rows) => Except.ok (false, { iter with rows := rows.Close })
  | (true, rows) =>
    match rows.Scan with
    | Except.error err => Except.ok (false, { iter with rows := rows.Close, err := some err })
    | Except.ok (entity, value, ts) =>
      match deserialize value with
      | Except.error err => Except.ok (false, { iter with rows := rows.Close, err := some err })
      | Except.ok val =>
        match castTableItemType val with
        | Except.error p => Except.error p
        | Except.ok v =>
          Except.ok (true, { iter with
            rows := rows, currentValue := { Entity := entity, Value := v, TS := ts } })

/-- `postgresFeatureIterator.Value`. -/
def postgresFeatureIterator.Value (iter : postgresFeatureIterator) : ResourceRecord :=
  iter.currentValue

/-- `postgresFeatureIterator.Err`: `return nil`. -/
def postgresFeatureIterator.Err (_iter : postgresFeatureIterator) : Option Error :=
  none

/-- The cursor of a training set: per row not yet fetched what `rows.Values()`
returns for it (the decoded columns, `nil` for a NULL, or an error), the row
fetched last, and whether the cursor is closed. -/
structure TrainingRows where
  pending : List (Except Error (List GoValue))
  current : Option (Except Error (List GoValue))
  closed : Bool

/-- `rows.Next()` on a training-set cursor. -/
def TrainingRows.Next (r : TrainingRows) : Bool × TrainingRows :=
  if r.closed then (false, r)
  else
    match r.pending with
    | [] => (false, { r with current := none, closed := true })
    | row :: rest => (true, { r with pending := rest, current := some row })

/-- `rows.Close()` on a training-set cursor. -/
def TrainingRows.Close (r : TrainingRows) : TrainingRows :=
  { r with current := none, closed := true }

/-- `rows.Values()`. -/
def TrainingRows.Values (r : TrainingRows) : Except Error (List GoValue) :=
  match r.current with
  | none => Except.error (Error.backend "no row to read")
  | some row => row

/-- `postgresTrainingRowsIterator`. -/
structure postgresTrainingRowsIterator where
  rows : TrainingRows
  currentFeatures : List GoValue
  currentLabel : GoValue
  err : Option Error

/-- `newPostgresTrainingSetIterator`. -/
def newPostgresTrainingSetIterator (rows : TrainingRows) : postgresTrainingRowsIterator :=
  { rows := rows, currentFeatures := [], currentLabel := GoValue.nil, err := none }

/-- `parseTableValue`: the value asserted to be a `map[string]interface{}`,
its `type` asserted to be a string, cast by `castTableItemType`. -/
def parseTableValue (value : GoValue) : Except Panic GoValue :=
  match value with
  | GoValue.map v =>
    match mapIndex v (goString "type") with
    | GoValue.string t =>
      castTableItemType { Value := mapIndex v (goString "value"), ItemType := t }
    | _ => Except.error (Panic.interfaceConversion "string")
  | _ => Except.error (Panic.interfaceConversion "map[string]interface {}")

/-- The loop of `postgresTrainingRowsIterator.Next` over `values`, from index
`i` on: a column before `numFeatures` is stored at its index of `featureVals`,
any other column in `label`; a `nil` column is stored as it is, any other one
parsed. -/
def trainingValuesLoop (numFeatures : Nat) :
    Nat → List GoValue → List GoValue × GoValue → Except Panic (List GoValue × GoValue)
  | _, [], acc => Except.ok acc
  | i, value :: rest, (featureVals, label) =>
    if i < numFeatures then
      match value with
      | GoValue.nil =>
        trainingValuesLoop numFeatures (i + 1) rest (featureVals.set i value, label)
      | _ =>
        match parseTableValue value with
        | Except.error p => Except.error p
        | Except.ok x => trainingValuesLoop numFeatures (i + 1) rest (featureVals.set i x, label)
    else
      match value with
      | GoValue.nil => trainingValuesLoop numFeatures (i + 1) rest (featureVals, value)
      | _ =>
        match parseTableValue value with
        | Except.error p => Except.error p
        | Except.ok x => trainingValuesLoop numFeatures (i + 1) rest (featureVals, x)

/-- `postgresTrainingRowsIterator.Next`; `make([]interface{}, numFeatures)`
panics for the negative length a row of no columns gives. -/
def postgresTrainingRowsIterator.Next (it : postgresTrainingRowsIterator) :
    Except Panic (Bool × postgresTrainingRowsIterator) :=
  match it.rows.Next with
  | (false, rows) => Except.ok (false, { it with rows := rows.Close })
  | (true, rows) =>
    match rows.Values with
    | Except.error err => Except.ok (false, { it with rows := rows.Close, err := some err })
    | Except.ok values =>
      match values with
      | [] => Except.error Panic.makeSliceLenOutOfRange
      | _ :: _ =>
        let numFeatures := values.length - 1
        match trainingValuesLoop numFeatures 0 values
            (List.replicate numFeatures GoValue.nil, GoValue.nil) with
        | Except.error p => Except.error p
        | Except.ok (featureVals, label) =>
          Except.ok (true, { it with
            rows := rows, currentFeatures := featureVals, currentLabel := label })

/-- `postgresTrainingRowsIterator.Err`. -/
def postgresTrainingRowsIterator.Err (it : postgresTrainingRowsIterator) : Option Error :=
  it.err

/-- `postgresTrainingRowsIterator.Features`. -/
def postgresTrainingRowsIterator.Features (it : postgresTrainingRowsIterator) : List GoValue :=
  it.currentFeatures

/-- `postgresTrainingRowsIterator.Label`. -/
def postgresTrainingRowsIterator.Label (it : postgresTrainingRowsIterator) : GoValue :=
  it.currentLabel

/-! ## Notions used to state the properties -/

/-- The rows of the `(entity, value, ts)` table registered under a name. -/
def Conn.resourceRows (c : Conn) (name : String) : List ResourceRow :=
  match c.lookup name with
  | some (Table.resource _ rows) => rows
  | _ => []

/-- The cell a training set shows for a joined feature row: its value, or
NULL when there is none. -/
def cellOf : Option ResourceRow → Cell
  | some t => Cell.jsonb t.value
  | none => Cell.null

/-- Point-in-time value: `x` is the value of a row of `t` that has the entity
of the label row `l` and the greatest timestamp at or before that of `l`; or
`t` has no row of that entity at or before it, and `x` is NULL. -/
def IsAsOfValue (t : List ResourceRow) (l : ResourceRow) (x : Cell) : Prop :=
  (∃ r ∈ t, r.entity = l.entity ∧ r.ts ≤ l.ts ∧
      (∀ r2 ∈ t, r2.entity = l.entity → r2.ts ≤ l.ts → r2.ts ≤ r.ts) ∧
      x = Cell.jsonb r.value) ∨
    ((∀ r ∈ t, ¬ (r.entity = l.entity ∧ r.ts ≤ l.ts)) ∧ x = Cell.null)

/-- A backend with the resource table of the Feature `(age, v1)`, holding
two observations of the entity `u1`. -/
def ageStore : Conn :=
  { tables := [("featureform_resource_feature_age_v1",
      Table.resource true [⟨"u1", Json.num 30, 1⟩, ⟨"u1", Json.num 31, 2⟩])],
    fault := none,
    executed := [] }

/-- A backend that registers the training set `(n, v)` and nothing else. -/
def trainingSetOnlyStore : Conn :=
  { tables := [("featureform_trainingset_n_v", Table.wide ["label"] [])],
    fault := none,
    executed := [] }

/-- A backend for the scenario of the spec: the Label `(clicked, v1)` with one
row of `u1` at time 10, and the Feature `(age, v1)` with rows of `u1` at
times 8 and 11. -/
def joinStore : Conn :=
  { tables := [
      ("featureform_resource_label_clicked_v1",
        Table.resource true [⟨"u1", Json.bool true, 10⟩]),
      ("featureform_resource_feature_age_v1",
        Table.resource true [⟨"u1", Json.num 30, 8⟩, ⟨"u1", Json.num 31, 11⟩])],
    fault := none,
    executed := [] }

/-- The training set `(ts, v1)` over `joinStore`. -/
def joinDef : TrainingSetDef :=
  { ID := ⟨"ts", "v1", OfflineResourceType.TrainingSet⟩,
    Label := ⟨"clicked", "v1", OfflineResourceType.Label⟩,
    Features := [⟨"age", "v1", OfflineResourceType.Feature⟩] }

/-- The tags whose value `castTableItemType` asserts to be a number. -/
def numericTags : List GoString :=
  [goString "int", goString "int8", goString "int16", goString "int32", goString "int64",
    goString "float32"]

/-- The decoded value is of the JSON kind its tag stands for: a number under
an integer tag or `float32`, a string under `string`, a boolean under `bool`
(any value under `float64` or another tag). -/
def TagMatches (tag : GoString) (v : GoValue) : Prop :=
  (tag ∈ numericTags → ∃ f, v = GoValue.float64 f) ∧
  (tag = goString "string" → ∃ s, v = GoValue.string s) ∧
  (tag = goString "bool" → ∃ b, v = GoValue.bool b)

/-- The values the codec is to restore exactly: an integer of a kind `int`,
`int8`, `int16`, `int32`, `int64` (in the range of its kind, `int` being 64
bits wide) of magnitude at most `2^53`, a string that is valid UTF-8, or a
boolean. -/
def IsExactScalar : GoValue → Prop
  | GoValue.int n => -(2 ^ 63) ≤ n ∧ n < 2 ^ 63 ∧ |n| ≤ 2 ^ 53
  | GoValue.int8 n => -(2 ^ 7) ≤ n ∧ n < 2 ^ 7
  | GoValue.int16 n => -(2 ^ 15) ≤ n ∧ n < 2 ^ 15
  | GoValue.int32 n => -(2 ^ 31) ≤ n ∧ n < 2 ^ 31
  | GoValue.int64 n => -(2 ^ 63) ≤ n ∧ n < 2 ^ 63 ∧ |n| ≤ 2 ^ 53
  | GoValue.string s => ∃ t : String, s = goString t
  | GoValue.bool _ => True
  | _ => False

/-- A well-formed value document, as `rows.Values()` decodes it: an object
whose `type` is a string and whose `value` is of the kind that tag stands for. -/
def WellFormedDoc (c : GoValue) : Prop :=
  ∃ kvs tag, c = GoValue.map kvs ∧ mapIndex kvs (goString "type") = GoValue.string tag ∧
    TagMatches tag (mapIndex kvs (goString "value"))

/-- The column `c` of a training-set row is returned as `x`: a NULL column as
`nil`, a document as its `value` cast by `castTableItemType` to its `type`. -/
def DecodesTo (c x : GoValue) : Prop :=
  (c = GoValue.nil ∧ x = GoValue.nil) ∨
    (∃ kvs tag, c = GoValue.map kvs ∧
      mapIndex kvs (goString "type") = GoValue.string tag ∧
      castTableItemType { Value := mapIndex kvs (goString "value"), ItemType := tag } =
        Except.ok x)

/-- A cursor over one row whose document is the JSON string `"x"`. -/
def undecodableRows : FeatureRows :=
  { pending := [⟨some "u1", some (Json.str "x"), some 1⟩],
    current := none, closed := false }

/-- A cursor over one row whose entity is NULL. -/
def unscannableRows : FeatureRows :=
  { pending := [⟨none, some (Json.obj [("value", Json.num 1), ("type", Json.str "int")]),
      some 1⟩],
    current := none, closed := false }

/-- A cursor over one row whose document pairs the tag `int` with a string. -/
def mismatchedRows : FeatureRows :=
  { pending := [⟨some "u1",
      some (Json.obj [("value", Json.str "abc"), ("type", Json.str "int")]), some 1⟩],
    current := none, closed := false }

/-- A cursor over one row whose document has the tag `int` and no value. -/
def valuelessRows : FeatureRows :=
  { pending := [⟨some "u1", some (Json.obj [("type", Json.str "int")]), some 1⟩],
    current := none, closed := false }

/-- A cursor over one row whose document is the `int` 31. -/
def matchingRows : FeatureRows :=
  { pending := [⟨some "u1",
      some (Json.obj [("value", Json.num 31), ("type", Json.str "int")]), some 2⟩],
    current := none, closed := false }

/-- A cursor over one training-set row of two feature columns, the first
NULL and the second the `int` 31, and the label `true`. -/
def trainingRowsExample : TrainingRows :=
  { pending := [Except.ok [GoValue.nil,
      GoValue.map [(goString "type", GoValue.string (goString "int")),
        (goString "value", GoValue.float64 (GoFloat.fin 31))],
      GoValue.map [(goString "type", GoValue.string (goString "bool")),
        (goString "value", GoValue.bool true)]]],
    current := none, closed := false }

/-! ## Properties of the naming scheme -/

/-- Two texts joined by an underscore split in one way only when the left
parts hold no underscore. -/
theorem underscore_split_left (a c b d : List Char) (ha : '_' ∉ a) (hc : '_' ∉ c)
    (h : a ++ '_' :: b = c ++ '_' :: d) : a = c ∧ b = d := by
  induction a generalizing c with
  | nil =>
    cases c with
    | nil => simpa using h
    | cons x xs =>
      simp only [List.nil_append, List.cons_append, List.cons.injEq] at h
      exact absurd (h.1 ▸ List.mem_cons_self _ _) hc
  | cons y ys ih =>
    cases c with
    | nil =>
      simp only [List.nil_append, List.cons_append, List.cons.injEq] at h
      exact absurd (h.1 ▸ List.mem_cons_self _ _) ha
    | cons x xs =>
      simp only [List.cons_append, List.cons.injEq] at h
      have := ih xs (fun hm => ha (List.mem_cons_of_mem _ hm))
        (fun hm => hc (List.mem_cons_of_mem _ hm)) h.2
      exact ⟨by rw [h.1, this.1], this.2⟩

/-- Two texts joined by an underscore split in one way only when the right
parts hold no underscore. -/
theorem underscore_split_right (a c b d : List Char) (hb : '_' ∉ b) (hd : '_' ∉ d)
    (h : a ++ '_' :: b = c ++ '_' :: d) : a = c ∧ b = d := by
  have hr : b.reverse ++ '_' :: a.reverse = d.reverse ++ '_' :: c.reverse := by
    have := congrArg List.reverse h
    simpa using this
  have := underscore_split_left b.reverse d.reverse a.reverse c.reverse
    (by simpa using hb) (by simpa using hd) hr
  exact ⟨List.reverse_injective this.2, List.reverse_injective this.1⟩

/-- The characters of a resource table name. -/
theorem getResourceTableName_data (id : ResourceID) :
    (getResourceTableName id).data =
      "featureform_resource_".data ++
        ((if id.Type_ = OfflineResourceType.Feature then "feature" else "label").data ++
          ('_' :: (id.Name.data ++ '_' :: id.Variant.data))) := by
  simp [getResourceTableName, String.data_append]

/-- Equal resource table names of two Feature-or-Label identifiers force the
same kind and the same `Name_Variant` text. -/
theorem getResourceTableName_eq_imp (a b : ResourceID)
    (ha : a.Type_ = OfflineResourceType.Feature ∨ a.Type_ = OfflineResourceType.Label)
    (hb : b.Type_ = OfflineResourceType.Feature ∨ b.Type_ = OfflineResourceType.Label)
    (h : getResourceTableName a = getResourceTableName b) :
    a.Type_ = b.Type_ ∧
      a.Name.data ++ '_' :: a.Variant.data = b.Name.data ++ '_' :: b.Variant.data := by
  have hd := congrArg String.data h
  rw [getResourceTableName_data, getResourceTableName_data] at hd
  have hd2 := List.append_cancel_left hd
  rcases ha with ha | ha <;> rcases hb with hb | hb <;> rw [ha, hb] at hd2 <;>
    simp at hd2 <;> simp [ha, hb, hd2]

/-- C9: for a ResourceID of Type Feature or Label, `getResourceTableName`
returns exactly `featureform_resource_<kind>_<Name>_<Variant>`, the kind being
`feature` for a Feature and `label` for a Label. -/
theorem getResourceTableName_format (id : ResourceID)
    (h : id.Type_ = OfflineResourceType.Feature ∨ id.Type_ = OfflineResourceType.Label) :
    ∃ kind : String,
      (id.Type_ = OfflineResourceType.Feature → kind = "feature") ∧
      (id.Type_ = OfflineResourceType.Label → kind = "label") ∧
      getResourceTableName id =
        "featureform_resource_" ++ kind ++ "_" ++ id.Name ++ "_" ++ id.Variant := by
  rcases h with h | h
  · refine ⟨"feature", fun _ => rfl, fun h2 => ?_, ?_⟩
    · rw [h] at h2
      cases h2
    · simp [getResourceTableName, h]
  · refine ⟨"label", fun h2 => ?_, fun _ => rfl, ?_⟩
    · rw [h] at h2
      cases h2
    · simp [getResourceTableName, h]

/-- Witness of C9 at the Label `(age, v1)`. -/
theorem getResourceTableName_format_witness :
    ∃ kind : String,
      ((⟨"age", "v1", OfflineResourceType.Label⟩ : ResourceID).Type_
          = OfflineResourceType.Feature → kind = "feature") ∧
      ((⟨"age", "v1", OfflineResourceType.Label⟩ : ResourceID).Type_
          = OfflineResourceType.Label → kind = "label") ∧
      getResourceTableName ⟨"age", "v1", OfflineResourceType.Label⟩ =
        "featureform_resource_" ++ kind ++ "_" ++ "age" ++ "_" ++ "v1" :=
  getResourceTableName_format ⟨"age", "v1", OfflineResourceType.Label⟩ (Or.inr rfl)

/-- C10, as stated, fails: the distinct Features `(a_b, c)` and `(a, b_c)`
get the same resource table name. -/
theorem getResourceTableName_collision :
    (⟨"a_b", "c", OfflineResourceType.Feature⟩ : ResourceID)
        ≠ ⟨"a", "b_c", OfflineResourceType.Feature⟩ ∧
      getResourceTableName ⟨"a_b", "c", OfflineResourceType.Feature⟩ =
        getResourceTableName ⟨"a", "b_c", OfflineResourceType.Feature⟩ := by
  constructor
  · decide
  · decide

/-- C10, amended: two distinct ResourceIDs of Type Feature or Label get
different resource table names whenever they differ in Type, or neither Name
holds an underscore, or neither Variant holds an underscore. -/
theorem getResourceTableName_injective_of_no_underscore (a b : ResourceID)
    (ha : a.Type_ = OfflineResourceType.Feature ∨ a.Type_ = OfflineResourceType.Label)
    (hb : b.Type_ = OfflineResourceType.Feature ∨ b.Type_ = OfflineResourceType.Label)
    (hne : a ≠ b)
    (hsep : a.Type_ ≠ b.Type_ ∨ ('_' ∉ a.Name.data ∧ '_' ∉ b.Name.data) ∨
      ('_' ∉ a.Variant.data ∧ '_' ∉ b.Variant.data)) :
    getResourceTableName a ≠ getResourceTableName b := by
  intro h
  obtain ⟨hty, hnv⟩ := getResourceTableName_eq_imp a b ha hb h
  have hsplit : a.Name.data = b.Name.data ∧ a.Variant.data = b.Variant.data := by
    rcases hsep with hs | hs | hs
    · exact absurd hty hs
    · exact underscore_split_left _ _ _ _ hs.1 hs.2 hnv
    · exact underscore_split_right _ _ _ _ hs.1 hs.2 hnv
  apply hne
  cases a
  cases b
  simp only [ResourceID.mk.injEq]
  exact ⟨String.ext hsplit.1, String.ext hsplit.2, hty⟩

/-- Witness of the amended C10 at the Features `(a, b)` and `(a, c)`. -/
theorem getResourceTableName_injective_of_no_underscore_witness :
    getResourceTableName ⟨"a", "b", OfflineResourceType.Feature⟩ ≠
      getResourceTableName ⟨"a", "c", OfflineResourceType.Feature⟩ :=
  getResourceTableName_injective_of_no_underscore
    ⟨"a", "b", OfflineResourceType.Feature⟩ ⟨"a", "c", OfflineResourceType.Feature⟩
    (Or.inl rfl) (Or.inl rfl) (by decide) (Or.inr (Or.inl ⟨by decide, by decide⟩))

/-! ## Existence guards -/

/-- C6: for a ResourceID of Type Feature or Label whose resource table the
catalog already registers, `CreateResourceTable` returns an error and no
table, and leaves the backend as it was (no statement is sent, the tables are
unchanged); the error is `TableAlreadyExists` with the identifier's Name and
Variant whenever the catalog query is answered, that is, unless the
connection itself fails. -/
theorem CreateResourceTable_existing (store : Conn) (id : ResourceID)
    (hty : id.Type_ = OfflineResourceType.Feature ∨ id.Type_ = OfflineResourceType.Label)
    (hreg : (store.lookup (getResourceTableName id)).isSome = true) :
    ∃ err, CreateResourceTable store id = (Except.error err, store) ∧
      (store.fault = none → err = Error.TableAlreadyExists id.Name id.Variant) := by
  have hcheck : id.check OfflineResourceType.Feature [OfflineResourceType.Label] = none := by
    rcases hty with h | h <;> simp [ResourceID.check, h]
  obtain ⟨t, ht⟩ := Option.isSome_iff_exists.mp hreg
  cases hf : store.fault with
  | none =>
    have hexists : tableExists store id = Except.ok true := by
      simp [tableExists, hcheck, Conn.scanTableExists, hf, ht]
    exact ⟨Error.TableAlreadyExists id.Name id.Variant,
      by simp [CreateResourceTable, hcheck, hexists], fun _ => rfl⟩
  | some e =>
    have hexists : tableExists store id = Except.error (Error.backend e) := by
      simp [tableExists, hcheck, Conn.scanTableExists, hf]
    exact ⟨Error.backend e, by simp [CreateResourceTable, hcheck, hexists],
      fun h => by cases h⟩

/-- Witness of C6 on `ageStore`. -/
theorem CreateResourceTable_existing_witness :
    ∃ err, CreateResourceTable ageStore ⟨"age", "v1", OfflineResourceType.Feature⟩ =
        (Except.error err, ageStore) ∧
      (ageStore.fault = none → err = Error.TableAlreadyExists "age" "v1") :=
  CreateResourceTable_existing ageStore ⟨"age", "v1", OfflineResourceType.Feature⟩
    (Or.inl rfl) (by decide)

/-- C7 on the code: for the TrainingSet identifier `(n, v)` and a catalog that
registers that training set, `GetResourceTable` returns a table handle (for
the label table `featureform_resource_label_n_v`, which does not exist) and
no error. -/
theorem GetResourceTable_trainingSet_handle :
    GetResourceTable trainingSetOnlyStore ⟨"n", "v", OfflineResourceType.TrainingSet⟩ =
      Except.ok { name := "featureform_resource_label_n_v" } ∧
    trainingSetOnlyStore.lookup "featureform_resource_label_n_v" = none := by
  constructor
  · rfl
  · rfl

/-- C2 on the code: on `ageStore`, two successive calls of
`CreateMaterialization` for the Feature `(age, v1)` both succeed; after the
first the materialization holds the latest row of `u1` once, after the second
it holds that row twice. -/
theorem CreateMaterialization_twice_duplicates :
    ∃ m1 s1 m2 s2,
      CreateMaterialization ageStore ⟨"age", "v1", OfflineResourceType.Feature⟩
        = (Except.ok m1, s1) ∧
      s1.lookup "featureform_materialization_age"
        = some (Table.resource false [⟨"u1", Json.num 31, 2⟩]) ∧
      CreateMaterialization s1 ⟨"age", "v1", OfflineResourceType.Feature⟩
        = (Except.ok m2, s2) ∧
      s2.lookup "featureform_materialization_age"
        = some (Table.resource false [⟨"u1", Json.num 31, 2⟩, ⟨"u1", Json.num 31, 2⟩]) :=
  ⟨_, _, _, _, rfl, rfl, rfl, rfl⟩

/-! ## Point-in-time join -/

/-- The lateral subquery returns at most one row; a row it returns has the
entity of the outer row, a timestamp at or before it, and the greatest such
timestamp in the table; it returns none only if the table has no such row. -/
theorem lateralSelect_spec (t : List ResourceRow) (l : ResourceRow) :
    ((lateralSelect t l = []) ∧ ∀ r ∈ t, ¬ (r.entity = l.entity ∧ r.ts ≤ l.ts)) ∨
    (∃ r, lateralSelect t l = [r] ∧ r ∈ t ∧ r.entity = l.entity ∧ r.ts ≤ l.ts ∧
      ∀ r2 ∈ t, r2.entity = l.entity → r2.ts ≤ l.ts → r2.ts ≤ r.ts) := by
  haveI : IsTotal ResourceRow (fun a b => b.ts ≤ a.ts) := ⟨fun a b => le_total b.ts a.ts⟩
  haveI : IsTrans ResourceRow (fun a b => b.ts ≤ a.ts) :=
    ⟨fun _ _ _ hab hbc => le_trans hbc hab⟩
  have hmem : ∀ r, r ∈ orderByTsDesc
      (t.filter (fun r => decide (r.entity = l.entity ∧ r.ts ≤ l.ts))) ↔
      (r ∈ t ∧ r.entity = l.entity ∧ r.ts ≤ l.ts) := by
    intro r
    simp [orderByTsDesc, List.mem_insertionSort, List.mem_filter]
  have hsorted : List.Sorted (fun a b : ResourceRow => b.ts ≤ a.ts) (orderByTsDesc
      (t.filter (fun r => decide (r.entity = l.entity ∧ r.ts ≤ l.ts)))) :=
    List.sorted_insertionSort _ _
  unfold lateralSelect
  cases hs : orderByTsDesc (t.filter (fun r => decide (r.entity = l.entity ∧ r.ts ≤ l.ts))) with
  | nil =>
    left
    refine ⟨rfl, fun r hr hp => ?_⟩
    have := (hmem r).mpr ⟨hr, hp.1, hp.2⟩
    rw [hs] at this
    cases this
  | cons r rest =>
    right
    rw [hs] at hsorted
    have hr := (hmem r).mp (by rw [hs]; exact List.mem_cons_self _ _)
    refine ⟨r, rfl, hr.1, hr.2.1, hr.2.2, fun r2 h2 he ht => ?_⟩
    have h2m := (hmem r2).mpr ⟨h2, he, ht⟩
    rw [hs] at h2m
    rcases List.mem_cons.mp h2m with h | h
    · rw [h]
    · exact List.rel_of_sorted_cons hsorted r2 h

/-- The value of the row the lateral subquery returns is the point-in-time
value. -/
theorem isAsOfValue_lateralSelect (t : List ResourceRow) (l : ResourceRow) :
    IsAsOfValue t l (cellOf (lateralSelect t l).head?) := by
  rcases lateralSelect_spec t l with ⟨h, hnone⟩ | ⟨r, h, hr, he, ht, hmax⟩
  · right
    exact ⟨hnone, by rw [h]; rfl⟩
  · left
    exact ⟨r, hr, he, ht, hmax, by rw [h]; rfl⟩

/-- Joining the lateral subquery keeps every row of the left side exactly
once, extended by the row the subquery returns for it or by NULLs. -/
theorem leftJoinLateralRows_lateralSelect (rows : List JoinRow) (t : List ResourceRow) :
    leftJoinLateralRows rows (lateralSelect t) (fun l r => decide (r.entity = l.entity)) =
      rows.map (fun lr => (lr.1, lr.2 ++ [(lateralSelect t lr.1).head?])) := by
  have hrow : ∀ lr : JoinRow,
      (match (lateralSelect t lr.1).filter (fun r => decide (r.entity = lr.1.entity)) with
        | [] => [(lr.1, lr.2 ++ [none])]
        | m :: ms => (m :: ms).map (fun t => (lr.1, lr.2 ++ [some t]))) =
      [(lr.1, lr.2 ++ [(lateralSelect t lr.1).head?])] := by
    intro lr
    rcases lateralSelect_spec t lr.1 with ⟨h, _⟩ | ⟨r, h, _, he, _, _⟩
    · simp [h]
    · simp [h, he]
  unfold leftJoinLateralRows
  simp only [hrow]
  induction rows with
  | nil => rfl
  | cons lr rest ih => simp [List.flatMap_cons, ih]

/-- One lateral join over a relation that is not yet closed. -/
theorem evalFrom_leftJoinLateral (c : Conn) (q : FromClause) (rel : JoinRel) (f : ResourceID)
    (i : Nat) (hq : c.evalFrom q = Except.ok rel) (hopen : rel.closed = false)
    (hfresh : ∀ a ∈ rel.items.map JoinItem.joinAlias, a < i)
    (hf : ∃ u rows, c.lookup (getResourceTableName f) = some (Table.resource u rows)) :
    c.evalFrom (FromClause.leftJoinLateral q (sanitize (getResourceTableName f)) i) =
      Except.ok
        { items := rel.items ++ [{ joinAlias := i, column := getResourceTableName f }],
          rows := rel.rows.map (fun lr => (lr.1, lr.2 ++
            [(lateralSelect (c.resourceRows (getResourceTableName f)) lr.1).head?])),
          closed := false } := by
  obtain ⟨u, rows, hl⟩ := hf
  have hnot : i ∉ rel.items.map JoinItem.joinAlias := fun h => lt_irrefl i (hfresh i h)
  have hrows : c.resourceRows (getResourceTableName f) = rows := by
    simp [Conn.resourceRows, hl]
  rw [hrows]
  simp only [Conn.evalFrom, hq, hopen, sanitize, hl]
  rw [if_neg hnot, leftJoinLateralRows_lateralSelect]
  simp

/-- The loop of `CreateTrainingSet`: the columns it collects are the resource
table names of the features in order, and the FROM clause it builds denotes
the rows of the clause it started from, each extended, per feature in order,
by the row the lateral subquery returns for it. -/
theorem evalFrom_trainingSetLoop (c : Conn) (len : Nat) (fs : List ResourceID) :
    ∀ (i : Nat) (cols : List Ident) (q : FromClause) (rel : JoinRel),
      c.evalFrom q = Except.ok rel → rel.closed = false →
      (∀ a ∈ rel.items.map JoinItem.joinAlias, a < i) →
      (∀ f ∈ fs, ∃ u rows, c.lookup (getResourceTableName f) = some (Table.resource u rows)) →
      i + fs.length = len → fs ≠ [] →
      ∃ rel2, c.evalFrom (trainingSetLoop len i fs (cols, q)).2 = Except.ok rel2 ∧
        (trainingSetLoop len i fs (cols, q)).1 =
          cols ++ fs.map (fun f => sanitize (getResourceTableName f)) ∧
        rel2.items.map JoinItem.column =
          rel.items.map JoinItem.column ++ fs.map getResourceTableName ∧
        rel2.rows = rel.rows.map (fun lr => (lr.1, lr.2 ++ fs.map (fun f =>
          (lateralSelect (c.resourceRows (getResourceTableName f)) lr.1).head?))) ∧
        rel2.closed = true := by
  induction fs with
  | nil => intro i cols q rel _ _ _ _ _ hne; exact absurd rfl hne
  | cons f rest ih =>
    intro i cols q rel hq hopen hfresh hfs hlen _
    have hstep := evalFrom_leftJoinLateral c q rel f i hq hopen hfresh
      (hfs f (List.mem_cons_self _ _))
    cases rest with
    | nil =>
      have hi : i = len - 1 := by simp at hlen; omega
      refine ⟨{ items := rel.items ++ [{ joinAlias := i, column := getResourceTableName f }],
                rows := rel.rows.map (fun lr => (lr.1, lr.2 ++
                  [(lateralSelect (c.resourceRows (getResourceTableName f)) lr.1).head?])),
                closed := true }, ?_, ?_, ?_, ?_, ?_⟩
      · simp only [trainingSetLoop, if_pos hi]
        rw [Conn.evalFrom, hstep]
        rfl
      · simp [trainingSetLoop]
      · simp
      · simp
      · rfl
    | cons g rest2 =>
      have hi : ¬ i = len - 1 := by simp at hlen; omega
      have hfresh2 : ∀ a ∈ (rel.items ++
          [({ joinAlias := i, column := getResourceTableName f } : JoinItem)]).map
            JoinItem.joinAlias, a < i + 1 := by
        intro a ha
        simp only [List.map_append, List.mem_append, List.map_cons, List.map_nil,
          List.mem_singleton] at ha
        rcases ha with ha | ha
        · exact Nat.lt_succ_of_lt (hfresh a ha)
        · rw [ha]; exact Nat.lt_succ_self i
      obtain ⟨rel2, h1, h2, h3, h4, h5⟩ := ih (i + 1)
        (cols ++ [sanitize (getResourceTableName f)])
        (FromClause.leftJoinLateral q (sanitize (getResourceTableName f)) i) _ hstep rfl
        hfresh2 (fun x hx => hfs x (List.mem_cons_of_mem _ hx))
        (by simp at hlen ⊢; omega) (by simp)
      refine ⟨rel2, ?_, ?_, ?_, ?_, h5⟩
      · rw [trainingSetLoop]
        simp only [if_neg hi]
        exact h1
      · rw [trainingSetLoop]
        simp only [if_neg hi]
        rw [h2]
        simp
      · rw [h3]
        simp
      · rw [h4]
        simp

/-- A lookup skips an entry under another key. -/
theorem lookup_cons_of_ne (a k : String) (b : Cell) (es : List (String × Cell)) (h : a ≠ k) :
    List.lookup a ((k, b) :: es) = List.lookup a es := by
  have hb : (a == k) = false := by simpa using h
  simp [List.lookup_cons, hb]

/-- A name that is none of `entity`, `value`, `ts` occurs among the columns in
scope as often as among the value columns of the lateral items. -/
theorem count_scopeNames (items : List JoinItem) (c : String)
    (h1 : c ≠ "entity") (h2 : c ≠ "value") (h3 : c ≠ "ts") :
    (scopeNames items).count c = (items.map JoinItem.column).count c := by
  have hflat : (items.flatMap (fun item => ["entity", item.column, "ts"])).count c =
      (items.map JoinItem.column).count c := by
    induction items with
    | nil => rfl
    | cons it its ih =>
      simp only [List.flatMap_cons, List.count_append, ih, List.map_cons]
      simp [List.count_cons, Ne.symm h1, Ne.symm h3]
      omega
  simp only [scopeNames, List.count_append, hflat]
  simp [List.count_cons, Ne.symm h1, Ne.symm h2, Ne.symm h3]

/-- Selecting the value columns of the lateral items, in order, from the
columns the items contribute to a row yields the cells of the joined rows. -/
theorem lookup_itemCells (items : List JoinItem) :
    ∀ js : List (Option ResourceRow), items.length = js.length →
      (items.map JoinItem.column).Nodup →
      (∀ c ∈ items.map JoinItem.column, c ≠ "entity" ∧ c ≠ "ts") →
      (items.map JoinItem.column).map (fun c =>
        ((List.zipWith itemCells items js).flatten.lookup c).getD Cell.null) =
        js.map cellOf := by
  induction items with
  | nil =>
    intro js hlen _ _
    cases js with
    | nil => rfl
    | cons j js2 => simp at hlen
  | cons it its ih =>
    intro js hlen hnd hbase
    cases js with
    | nil => simp at hlen
    | cons j js2 =>
      have hit := hbase it.column (by simp)
      have hnd2 : it.column ∉ its.map JoinItem.column ∧ (its.map JoinItem.column).Nodup :=
        List.nodup_cons.mp hnd
      simp only [List.map_cons, List.zipWith_cons_cons, List.flatten_cons, List.cons.injEq]
      constructor
      · cases j with
        | none =>
          simp only [itemCells, List.cons_append, List.nil_append, cellOf]
          rw [lookup_cons_of_ne _ _ _ _ hit.1]
          simp
        | some t =>
          simp only [itemCells, List.cons_append, List.nil_append, cellOf]
          rw [lookup_cons_of_ne _ _ _ _ hit.1]
          simp
      · rw [← ih js2 (by simpa using hlen) hnd2.2
          (fun c hc => hbase c (by simp only [List.map_cons]; exact List.mem_cons_of_mem _ hc))]
        apply List.map_congr_left
        intro c hc
        have hcb := hbase c (by simp only [List.map_cons]; exact List.mem_cons_of_mem _ hc)
        have hne : c ≠ it.column := fun h => hnd2.1 (h ▸ hc)
        cases j with
        | none =>
          simp only [itemCells, List.cons_append, List.nil_append]
          rw [lookup_cons_of_ne _ _ _ _ hcb.1, lookup_cons_of_ne _ _ _ _ hne,
            lookup_cons_of_ne _ _ _ _ hcb.2]
        | some t =>
          simp only [itemCells, List.cons_append, List.nil_append]
          rw [lookup_cons_of_ne _ _ _ _ hcb.1, lookup_cons_of_ne _ _ _ _ hne,
            lookup_cons_of_ne _ _ _ _ hcb.2]

/-- A resource table name is none of the fixed column names. -/
theorem getResourceTableName_ne_fixed (id : ResourceID) :
    getResourceTableName id ≠ "entity" ∧ getResourceTableName id ≠ "value" ∧
      getResourceTableName id ≠ "ts" ∧ getResourceTableName id ≠ "label" := by
  refine ⟨?_, ?_, ?_, ?_⟩ <;>
  · intro h
    have hd := congrArg String.data h
    rw [getResourceTableName_data] at hd
    simp at hd

/-- The select list of `CreateTrainingSet` over the relation its FROM clause
denotes: one row per row of the join, holding the cell of each joined feature
row in order and then the label value. -/
theorem selectColumns_features (rel : JoinRel) (fs : List ResourceID) (labelRows : List ResourceRow)
    (sub : ResourceID → ResourceRow → Option ResourceRow)
    (hitems : rel.items.map JoinItem.column = fs.map getResourceTableName)
    (hrows : rel.rows = labelRows.map (fun l => (l, fs.map (fun f => sub f l))))
    (hnd : (fs.map getResourceTableName).Nodup) :
    selectColumns rel (fs.map (fun f => sanitize (getResourceTableName f))) =
      Except.ok (labelRows.map (fun l =>
        fs.map (fun f => cellOf (sub f l)) ++ [Cell.jsonb l.value])) := by
  have hall : (fs.map (fun f => sanitize (getResourceTableName f))).all
      (fun c => decide ((scopeNames rel.items).count c.name = 1)) = true := by
    rw [List.all_eq_true]
    intro c hc
    obtain ⟨f, hf, rfl⟩ := List.mem_map.mp hc
    have hne := getResourceTableName_ne_fixed f
    simp only [sanitize, decide_eq_true_eq]
    rw [count_scopeNames _ _ hne.1 hne.2.1 hne.2.2.1, hitems]
    exact List.count_eq_one_of_mem hnd (List.mem_map_of_mem _ hf)
  have hlen : rel.items.length = fs.length := by
    have := congrArg List.length hitems
    simpa using this
  simp only [selectColumns, hall, if_true, hrows, List.map_map]
  congr 1
  apply List.map_congr_left
  intro l _
  simp only [Function.comp, List.append_cancel_right_eq]
  have hscope : ∀ c ∈ fs.map getResourceTableName,
      (rowScope rel.items (l, fs.map (fun f => sub f l))).lookup c =
        (List.zipWith itemCells rel.items (fs.map (fun f => sub f l))).flatten.lookup c := by
    intro c hc
    obtain ⟨f, _, rfl⟩ := List.mem_map.mp hc
    have hne := getResourceTableName_ne_fixed f
    simp only [rowScope, List.cons_append, List.nil_append]
    rw [lookup_cons_of_ne _ _ _ _ hne.1, lookup_cons_of_ne _ _ _ _ hne.2.1,
      lookup_cons_of_ne _ _ _ _ hne.2.2.1]
  have hcells := lookup_itemCells rel.items (fs.map (fun f => sub f l))
    (by simpa using hlen) (by rw [hitems]; exact hnd)
    (by
      rw [hitems]
      intro c hc
      obtain ⟨f, _, rfl⟩ := List.mem_map.mp hc
      exact ⟨(getResourceTableName_ne_fixed f).1, (getResourceTableName_ne_fixed f).2.2.1⟩)
  rw [hitems] at hcells
  have hleft : fs.map (fun f => ((rowScope rel.items (l, fs.map (fun f => sub f l))).lookup
      (sanitize (getResourceTableName f)).name).getD Cell.null) =
      (fs.map getResourceTableName).map (fun c =>
        ((List.zipWith itemCells rel.items (fs.map (fun f => sub f l))).flatten.lookup c).getD
          Cell.null) := by
    rw [List.map_map]
    apply List.map_congr_left
    intro f hf
    simp only [Function.comp, sanitize]
    rw [hscope _ (List.mem_map_of_mem _ hf)]
  have hgoal : fs.map ((fun c : Ident => ((rowScope rel.items
      (l, fs.map (fun f => sub f l))).lookup c.name).getD Cell.null) ∘
        fun f => sanitize (getResourceTableName f)) =
      fs.map (fun f => ((rowScope rel.items (l, fs.map (fun f => sub f l))).lookup
        (sanitize (getResourceTableName f)).name).getD Cell.null) := rfl
  rw [hgoal, hleft, hcells, List.map_map]
  rfl

/-- A statement the backend runs without error, over a working connection,
yields the catalog it produces. -/
theorem Exec_of_run (c : Conn) (stmt : Stmt) (c2 : Conn) (hup : c.fault = none)
    (hrun : Conn.run { c with executed := c.executed ++ [stmt] } stmt = Except.ok c2) :
    c.Exec stmt = (none, c2) := by
  unfold Conn.Exec
  split
  · rename_i e he
    rw [hup] at he
    cases he
  · simp only [hrun]

/-- A table registered last under a fresh name is found under that name. -/
theorem lookup_create (c : Conn) (name : String) (t : Table) (h : c.lookup name = none) :
    (c.create name t).lookup name = some t := by
  simp only [Conn.lookup, Conn.create] at h ⊢
  rw [List.lookup_append, h]
  simp [List.lookup_cons]

/-- C1: point-in-time join.  For a valid definition whose label table and
pairwise distinct feature tables exist (and whose training-set table does not
yet), `CreateTrainingSet` succeeds and the table it creates has the feature
columns in declared order followed by `label`, and exactly one row per label
row, in the order of the label rows: the row of the label row `(E, T, v)` is
`(x_1, ..., x_n, v)`, where `x_i` is the value of a row of feature `i` with
entity `E` and the greatest timestamp at or before `T`, and NULL when the
feature has no row of `E` at or before `T`. -/
theorem CreateTrainingSet_point_in_time (store : Conn) (d : TrainingSetDef) (u : Bool)
    (labelRows : List ResourceRow)
    (hcheck : d.check = none) (hup : store.fault = none)
    (hlabel : store.lookup (getResourceTableName d.Label) = some (Table.resource u labelRows))
    (hfeatures : ∀ f ∈ d.Features, ∃ uf rows,
      store.lookup (getResourceTableName f) = some (Table.resource uf rows))
    (hdistinct : (d.Features.map getResourceTableName).Nodup)
    (hnew : store.lookup (getTrainingSetName d.ID) = none) :
    ∃ store2 rows,
      CreateTrainingSet store d = (none, store2) ∧
      store2.lookup (getTrainingSetName d.ID) =
        some (Table.wide (d.Features.map getResourceTableName ++ ["label"]) rows) ∧
      List.Forall₂ (fun l row => ∃ xs, row = xs ++ [Cell.jsonb l.value] ∧
          List.Forall₂ (fun f x =>
            IsAsOfValue (store.resourceRows (getResourceTableName f)) l x) d.Features xs)
        labelRows rows := by
  -- what the validation of the definition gives
  have hlab : d.Label.Type_ = OfflineResourceType.Label := by
    unfold TrainingSetDef.check at hcheck
    split at hcheck
    · cases hcheck
    · split at hcheck
      · cases hcheck
      · rename_i h
        simpa [ResourceID.check] using h
  have hne : d.Features ≠ [] := by
    intro hnil
    unfold TrainingSetDef.check at hcheck
    split at hcheck
    · cases hcheck
    · split at hcheck
      · cases hcheck
      · simp [hnil] at hcheck
  -- the label table is found
  have hget : getPostgresResourceTable store d.Label =
      Except.ok { name := getResourceTableName d.Label } := by
    simp [getPostgresResourceTable, tableExists, ResourceID.check, hlab,
      Conn.scanTableExists, hup, hlabel]
  -- the statement, as the backend evaluates it
  let sent : Conn := { store with executed := store.executed ++
    [Stmt.createTrainingSet (sanitize (getTrainingSetName d.ID))
      (trainingSetLoop d.Features.length 0 d.Features
        ([], FromClause.label (sanitize (getResourceTableName d.Label)))).1
      (trainingSetLoop d.Features.length 0 d.Features
        ([], FromClause.label (sanitize (getResourceTableName d.Label)))).2] }
  have hlk : ∀ n, sent.lookup n = store.lookup n := fun _ => rfl
  have hrr : ∀ n, sent.resourceRows n = store.resourceRows n := fun _ => rfl
  have h0 : sent.evalFrom (FromClause.label (sanitize (getResourceTableName d.Label))) =
      Except.ok { items := [], rows := labelRows.map (fun r => (r, [])), closed := false } := by
    simp only [Conn.evalFrom, sanitize, hlk, hlabel]
  obtain ⟨rel2, hev, hcols, hitems, hrows, hclosed⟩ :=
    evalFrom_trainingSetLoop sent d.Features.length d.Features 0 []
      (FromClause.label (sanitize (getResourceTableName d.Label))) _ h0 rfl (by simp)
      (fun f hf => by simpa only [hlk] using hfeatures f hf) (by simp) hne
  simp only [List.map_nil, List.nil_append, List.map_map] at hitems hrows hcols
  have hrows2 : rel2.rows = labelRows.map (fun l => (l, d.Features.map (fun f =>
      (lateralSelect (store.resourceRows (getResourceTableName f)) l).head?))) := by
    rw [hrows]
    apply List.map_congr_left
    intro l _
    simp [hrr]
  have hsel := selectColumns_features rel2 d.Features labelRows
    (fun f l => (lateralSelect (store.resourceRows (getResourceTableName f)) l).head?)
    hitems hrows2 hdistinct
  have hnames : (d.Features.map (fun f => sanitize (getResourceTableName f))).map Ident.name =
      d.Features.map getResourceTableName := by
    rw [List.map_map]
    rfl
  have hnd : (d.Features.map getResourceTableName ++ ["label"]).Nodup := by
    rw [List.nodup_append]
    refine ⟨hdistinct, List.nodup_singleton _, ?_⟩
    intro a ha hb
    obtain ⟨f, _, rfl⟩ := List.mem_map.mp ha
    exact (getResourceTableName_ne_fixed f).2.2.2 (List.mem_singleton.mp hb)
  have hempty : (d.Features.map (fun f => sanitize (getResourceTableName f))).isEmpty = false := by
    cases hf : d.Features with
    | nil => exact absurd hf hne
    | cons a b => rfl
  have hrun : sent.run (Stmt.createTrainingSet (sanitize (getTrainingSetName d.ID))
      (trainingSetLoop d.Features.length 0 d.Features
        ([], FromClause.label (sanitize (getResourceTableName d.Label)))).1
      (trainingSetLoop d.Features.length 0 d.Features
        ([], FromClause.label (sanitize (getResourceTableName d.Label)))).2) =
      Except.ok (sent.create (getTrainingSetName d.ID)
        (Table.wide (d.Features.map getResourceTableName ++ ["label"])
          (labelRows.map (fun l => d.Features.map (fun f => cellOf
            (lateralSelect (store.resourceRows (getResourceTableName f)) l).head?)
              ++ [Cell.jsonb l.value])))) := by
    have hsn : (sanitize (getTrainingSetName d.ID)).name = getTrainingSetName d.ID := rfl
    simp only [Conn.run, hev, hcols, hclosed, hempty, hsel, hnames, hnd, hsn, hlk, hnew]
    simp
  refine ⟨sent.create (getTrainingSetName d.ID)
      (Table.wide (d.Features.map getResourceTableName ++ ["label"])
        (labelRows.map (fun l => d.Features.map (fun f => cellOf
          (lateralSelect (store.resourceRows (getResourceTableName f)) l).head?)
            ++ [Cell.jsonb l.value]))),
    labelRows.map (fun l => d.Features.map (fun f => cellOf
      (lateralSelect (store.resourceRows (getResourceTableName f)) l).head?)
        ++ [Cell.jsonb l.value]),
    ?_, lookup_create sent _ _ (by rw [hlk]; exact hnew), ?_⟩
  · simp only [CreateTrainingSet, hcheck, hget]
    exact Exec_of_run store _ _ hup hrun
  · rw [List.forall₂_map_right_iff, List.forall₂_same]
    intro l _
    refine ⟨_, rfl, ?_⟩
    rw [List.forall₂_map_right_iff, List.forall₂_same]
    intro f _
    exact isAsOfValue_lateralSelect _ _

/-- Witness of C1 on `joinStore` and `joinDef`. -/
theorem CreateTrainingSet_point_in_time_witness :
    ∃ store2 rows,
      CreateTrainingSet joinStore joinDef = (none, store2) ∧
      store2.lookup (getTrainingSetName joinDef.ID) =
        some (Table.wide (joinDef.Features.map getResourceTableName ++ ["label"]) rows) ∧
      List.Forall₂ (fun l row => ∃ xs, row = xs ++ [Cell.jsonb l.value] ∧
          List.Forall₂ (fun f x =>
            IsAsOfValue (joinStore.resourceRows (getResourceTableName f)) l x)
            joinDef.Features xs)
        [⟨"u1", Json.bool true, 10⟩] rows :=
  CreateTrainingSet_point_in_time joinStore joinDef true [⟨"u1", Json.bool true, 10⟩]
    rfl rfl rfl
    (fun f hf => by
      rw [List.mem_singleton.mp hf]
      exact ⟨true, [⟨"u1", Json.num 30, 8⟩, ⟨"u1", Json.num 31, 11⟩], rfl⟩)
    (by decide) rfl

/-- The scenario of the spec, evaluated: the training row of the label at
time 10 carries the feature value observed at time 8, not the one at 11. -/
theorem CreateTrainingSet_scenario :
    (CreateTrainingSet joinStore joinDef).1 = none ∧
    (CreateTrainingSet joinStore joinDef).2.lookup "featureform_trainingset_ts_v1" =
      some (Table.wide ["featureform_resource_feature_age_v1", "label"]
        [[Cell.jsonb (Json.num 30), Cell.jsonb (Json.bool true)]]) :=
  ⟨rfl, rfl⟩

/-! ## Value codec -/

/-- A character is a Unicode scalar value: below the surrogates, or above them
and at most U+10FFFF. -/
theorem char_range (c : Char) : c.toNat < 0xD800 ∨ (0xDFFF < c.toNat ∧ c.toNat < 0x110000) := by
  have := c.valid
  simp [UInt32.isValidChar, Nat.isValidChar] at this
  exact this

/-- A number below 256 is the value of the byte made of it. -/
theorem toNat_ofNat_lt (k : Nat) (h : k < 256) : (UInt8.ofNat k).toNat = k := by
  simp [UInt8.toNat, UInt8.ofNat, Fin.ofNat, Nat.mod_eq_of_lt h]

/-- Decoding the bytes of a character, whatever follows them, yields the
character and the number of its bytes. -/
theorem decodeRune_encodeRune (c : Char) (rest : GoString) :
    decodeRune (encodeRune c ++ rest) = (c, (encodeRune c).length) := by
  have hr := char_range c
  have hc : Char.ofNat c.toNat = c := Char.ofNat_toNat c
  unfold encodeRune
  simp only []
  by_cases h1 : c.toNat < 0x80
  · simp only [if_pos h1, List.cons_append, List.nil_append, decodeRune]
    rw [toNat_ofNat_lt _ (by omega)]
    simp [h1, hc]
  · by_cases h2 : c.toNat < 0x800
    · simp only [if_neg h1, if_pos h2, List.cons_append, List.nil_append, decodeRune]
      rw [toNat_ofNat_lt _ (by omega), toNat_ofNat_lt _ (by omega)]
      have e1 : ¬ (192 + c.toNat / 64 < 128) := by omega
      have e2 : 194 ≤ 192 + c.toNat / 64 ∧ 192 + c.toNat / 64 ≤ 223 := by omega
      have e3 : isCont (128 + c.toNat % 64) = true := by simp [isCont]; omega
      have e4 : (192 + c.toNat / 64 - 192) * 64 + (128 + c.toNat % 64 - 128) = c.toNat := by omega
      rw [if_neg e1, if_pos e2, if_pos e3, e4, hc]
      rfl
    · by_cases h3 : c.toNat < 0x10000
      · simp only [if_neg h1, if_neg h2, if_pos h3, List.cons_append, List.nil_append, decodeRune]
        rw [toNat_ofNat_lt _ (by omega), toNat_ofNat_lt _ (by omega),
          toNat_ofNat_lt _ (by omega)]
        have e1 : ¬ (224 + c.toNat / 4096 < 128) := by omega
        have e2 : ¬ (194 ≤ 224 + c.toNat / 4096 ∧ 224 + c.toNat / 4096 ≤ 223) := by omega
        have e3 : 224 ≤ 224 + c.toNat / 4096 ∧ 224 + c.toNat / 4096 ≤ 239 := by omega
        have e4 : (if 224 + c.toNat / 4096 = 224 then 160 else 128) ≤ 128 + c.toNat / 64 % 64 ∧
            128 + c.toNat / 64 % 64 ≤ (if 224 + c.toNat / 4096 = 237 then 159 else 191) ∧
            isCont (128 + c.toNat % 64) = true := by
          refine ⟨?_, ?_, ?_⟩
          · split <;> omega
          · split <;> omega
          · simp [isCont]; omega
        have e5 : (224 + c.toNat / 4096 - 224) * 4096 + (128 + c.toNat / 64 % 64 - 128) * 64 +
            (128 + c.toNat % 64 - 128) = c.toNat := by omega
        rw [if_neg e1, if_neg e2, if_pos e3, if_pos e4, e5, hc]
        rfl
      · simp only [if_neg h1, if_neg h2, if_neg h3, List.cons_append, List.nil_append, decodeRune]
        rw [toNat_ofNat_lt _ (by omega), toNat_ofNat_lt _ (by omega),
          toNat_ofNat_lt _ (by omega), toNat_ofNat_lt _ (by omega)]
        have e1 : ¬ (240 + c.toNat / 262144 < 128) := by omega
        have e2 : ¬ (194 ≤ 240 + c.toNat / 262144 ∧ 240 + c.toNat / 262144 ≤ 223) := by omega
        have e3 : ¬ (224 ≤ 240 + c.toNat / 262144 ∧ 240 + c.toNat / 262144 ≤ 239) := by omega
        have e3b : 240 ≤ 240 + c.toNat / 262144 ∧ 240 + c.toNat / 262144 ≤ 244 := by omega
        have e4 : (if 240 + c.toNat / 262144 = 240 then 144 else 128) ≤
              128 + c.toNat / 4096 % 64 ∧
            128 + c.toNat / 4096 % 64 ≤ (if 240 + c.toNat / 262144 = 244 then 143 else 191) ∧
            isCont (128 + c.toNat / 64 % 64) = true ∧ isCont (128 + c.toNat % 64) = true := by
          refine ⟨?_, ?_, ?_, ?_⟩
          · split <;> omega
          · split <;> omega
          · simp [isCont]; omega
          · simp [isCont]; omega
        have e5 : (240 + c.toNat / 262144 - 240) * 262144 +
            (128 + c.toNat / 4096 % 64 - 128) * 4096 + (128 + c.toNat / 64 % 64 - 128) * 64 +
            (128 + c.toNat % 64 - 128) = c.toNat := by omega
        rw [if_neg e1, if_neg e2, if_neg e3, if_pos e3b, if_pos e4, e5, hc]
        rfl

/-- A character is encoded in at least one byte. -/
theorem encodeRune_length_pos (c : Char) : 0 < (encodeRune c).length := by
  unfold encodeRune
  simp only []
  split_ifs <;> simp

/-- Decoding the bytes of a sequence of characters, with fuel enough for
them, yields the characters. -/
theorem decodeRunesAux_flatMap (cs : List Char) :
    ∀ fuel, (cs.flatMap encodeRune).length ≤ fuel →
      decodeRunesAux fuel (cs.flatMap encodeRune) = cs := by
  induction cs with
  | nil =>
    intro fuel _
    cases fuel <;> rfl
  | cons c cs ih =>
    intro fuel hfuel
    have hpos := encodeRune_length_pos c
    simp only [List.flatMap_cons, List.length_append] at hfuel ⊢
    cases fuel with
    | zero => omega
    | succ fuel =>
      cases henc : encodeRune c with
      | nil => rw [henc] at hpos; simp at hpos
      | cons b bs =>
        have hdec := decodeRune_encodeRune c (cs.flatMap encodeRune)
        rw [henc] at hdec hfuel
        simp only [List.cons_append] at hdec ⊢
        simp only [decodeRunesAux, hdec]
        have hdrop : List.drop (b :: bs).length (b :: (bs ++ cs.flatMap encodeRune)) =
            cs.flatMap encodeRune := by
          rw [← List.cons_append, List.drop_left]
        rw [hdrop, ih fuel (by simp only [List.length_cons] at hfuel; omega)]

/-- The runes of the bytes of a text are its characters. -/
theorem decodeRunes_goString (s : String) : decodeRunes (goString s) = s.data :=
  decodeRunesAux_flatMap s.data _ (le_refl _)

/-- An integer rounds to itself. -/
theorem roundHalfEven_intCast (k : Int) : roundHalfEven (k : ℚ) = k := by
  simp [roundHalfEven]

/-- The binary logarithm of 1. -/
theorem log2_one : Nat.log2 1 = 0 := by
  have : Nat.log2 1 < 1 := (Nat.log2_lt (by norm_num)).mpr (by norm_num)
  omega

/-- The binary exponent of a nonzero integer is the binary logarithm of its
magnitude. -/
theorem floorLog2_intCast (n : Int) (hn : n ≠ 0) :
    floorLog2 (n : ℚ) = (Nat.log2 n.natAbs : Int) := by
  have hm : n.natAbs ≠ 0 := Int.natAbs_ne_zero.mpr hn
  have habs : |(n : ℚ)| = (n.natAbs : ℚ) := by
    rw [Nat.cast_natAbs, Int.cast_abs]
  have h1 : ((2:ℚ) ^ (((Nat.log2 n.natAbs : Nat) : Int)) ≤ |(n : ℚ)|) := by
    rw [habs, zpow_natCast]
    exact_mod_cast Nat.log2_self_le hm
  unfold floorLog2
  simp only [Rat.num_intCast, Rat.den_intCast]
  rw [log2_one]
  simp only [Nat.cast_zero, sub_zero]
  rw [if_pos h1]

/-- A positive integer of at most `2^53` is a whole number of units in the
last place of its binade, so rounding its significand changes nothing. -/
theorem roundHalfEven_scaled (m : Nat) (hm : m ≠ 0) (hmle : m ≤ 2 ^ 53) :
    ((roundHalfEven ((m : ℚ) / (2 : ℚ) ^ (((Nat.log2 m : Nat) : Int) - 52)) : Int) : ℚ)
      * (2 : ℚ) ^ (((Nat.log2 m : Nat) : Int) - 52) = (m : ℚ) := by
  have hlog : Nat.log2 m ≤ 53 := by
    have : Nat.log2 m < 54 := (Nat.log2_lt hm).mpr (by omega)
    omega
  rcases Nat.lt_or_ge (Nat.log2 m) 53 with hlt | hge
  · obtain ⟨k, hk⟩ : ∃ k : Nat, Nat.log2 m + k = 52 := ⟨52 - Nat.log2 m, by omega⟩
    have he : ((Nat.log2 m : Nat) : Int) - 52 = -(k : Int) := by omega
    rw [he, zpow_neg, zpow_natCast, div_inv_eq_mul]
    have hcast : (m : ℚ) * 2 ^ k = (((m * 2 ^ k : Nat) : Int) : ℚ) := by
      push_cast
      ring
    rw [hcast, roundHalfEven_intCast]
    push_cast
    field_simp
  · have he : Nat.log2 m = 53 := by omega
    have hm53 : m = 2 ^ 53 := by
      have := Nat.log2_self_le hm
      rw [he] at this
      omega
    rw [he, hm53]
    have : ((2 : ℚ) ^ (((53 : Nat) : Int) - 52)) = 2 := by norm_num
    rw [this]
    have hcast : (((2 ^ 53 : Nat) : ℚ) / 2) = (((2 ^ 52 : Nat) : Int) : ℚ) := by
      push_cast
      norm_num
    rw [hcast, roundHalfEven_intCast]
    push_cast
    norm_num

/-- An integer of magnitude at most `2^53` is a `float64`: rounding it yields
the integer itself. -/
theorem roundFloat64_intCast (n : Int) (h : |n| ≤ 2 ^ 53) :
    roundFloat64 (n : ℚ) = GoFloat.fin n := by
  by_cases hn : n = 0
  · subst hn
    simp [roundFloat64, roundToFloat]
  have hq : (n : ℚ) ≠ 0 := by exact_mod_cast hn
  have hm : n.natAbs ≠ 0 := Int.natAbs_ne_zero.mpr hn
  have hmle : n.natAbs ≤ 2 ^ 53 := by
    have : (n.natAbs : Int) ≤ 2 ^ 53 := by rw [Int.natCast_natAbs]; exact h
    exact_mod_cast this
  have habs : |(n : ℚ)| = (n.natAbs : ℚ) := by
    rw [Nat.cast_natAbs, Int.cast_abs]
  unfold roundFloat64 roundToFloat
  simp only [if_neg hq]
  rw [floorLog2_intCast n hn]
  have hmax : max ((Nat.log2 n.natAbs : Nat) : Int) (-1022) = ((Nat.log2 n.natAbs : Nat) : Int) := by
    apply max_eq_left
    omega
  rw [hmax]
  have hsub : (((Nat.log2 n.natAbs : Nat) : Int) - (((53 : Nat) : Int) - 1)) =
      ((Nat.log2 n.natAbs : Nat) : Int) - 52 := by norm_num
  rw [hsub, habs, roundHalfEven_scaled _ hm hmle]
  have hbig : ¬ ((2 : ℚ) ^ ((1023 : Int) + 1) ≤ (n.natAbs : ℚ)) := by
    rw [not_le]
    have h1 : (n.natAbs : ℚ) ≤ 2 ^ 53 := by exact_mod_cast hmle
    have h2 : (2 : ℚ) ^ 53 < (2 : ℚ) ^ ((1023 : Int) + 1) := by
      have : ((1023 : Int) + 1) = ((1024 : Nat) : Int) := by norm_num
      rw [this, zpow_natCast]
      exact pow_lt_pow_right₀ (by norm_num) (by norm_num)
    exact lt_of_le_of_lt h1 h2
  rw [if_neg hbig]
  congr 1
  by_cases hneg : (n : ℚ) < 0
  · rw [if_pos hneg, ← habs, abs_of_neg hneg, neg_neg]
  · rw [if_neg hneg, ← habs, abs_of_nonneg (not_lt.mp hneg)]

/-- Encoding a text and coercing the bytes to valid UTF-8 gives the text back. -/
theorem toValidUTF8_goString (s : String) : toValidUTF8 (goString s) = s := by
  unfold toValidUTF8
  rw [decodeRunes_goString]

/-- Decoding the document `{"value": value, "type": tag}` into an item. -/
theorem unmarshalItem_envelope (value : Json) (tag : String) (v : GoValue)
    (h : jsonToInterface value = Except.ok v) :
    unmarshalItem (Json.obj [("value", value), ("type", Json.str tag)]) =
      Except.ok { Value := v, ItemType := goString tag } := by
  have h1 : foldName "value" = "value" := by decide
  have h2 : ¬ ("type" : String) = "value" := by decide
  have h3 : foldName "type" = "type" := by decide
  simp only [unmarshalItem, unmarshalFields, unmarshalField, h1, h2, h3, if_true, if_false, h]

/-- An integer literal of magnitude at most `2^53` decodes to the `float64`
of the same value. -/
theorem jsonToInterface_int (n : Int) (h : |n| ≤ 2 ^ 53) :
    jsonToInterface (Json.num n) = Except.ok (GoValue.float64 (GoFloat.fin n)) := by
  simp only [jsonToInterface, roundFloat64_intCast n h]

/-- Converting the `float64` of an integer in the range of a kind to that
kind gives the integer. -/
theorem floatToInt_intCast (bits : Nat) (n : Int)
    (hb : bits = 8 ∨ bits = 16 ∨ bits = 32 ∨ bits = 64)
    (hlo : -(2 ^ (bits - 1)) ≤ n) (hhi : n < 2 ^ (bits - 1)) :
    floatToInt bits (GoFloat.fin n) = n := by
  simp only [floatToInt, Rat.num_intCast, Rat.den_intCast, Nat.cast_one, Int.tdiv_one, wrapInt]
  rcases hb with rfl | rfl | rfl | rfl <;> norm_num at hlo hhi ⊢ <;> omega

/-- C3, amended: codec round trip.  For every value of kind `int`, `int8`,
`int16`, `int32` or `int64` of magnitude at most `2^53`, every string that is
valid UTF-8 and every bool (and any formatting of floats), `serialize` yields
the document of the value and its Go type name as tag, and decoding that
document as the feature iterator does (`deserialize`, then
`castTableItemType`) returns the value with its kind. -/
theorem codec_round_trip (fmtFloat : Nat → ℚ → ℚ) (v : GoValue) (h : IsExactScalar v) :
    ∃ value item,
      serialize fmtFloat v =
        Except.ok (Json.obj [("value", value), ("type", Json.str v.typeName)]) ∧
      deserialize (some (Json.obj [("value", value), ("type", Json.str v.typeName)])) =
        Except.ok item ∧
      castTableItemType item = Except.ok v := by
  cases v with
  | nil => exact absurd h (by simp [IsExactScalar])
  | int n =>
    obtain ⟨hlo, hhi, habs⟩ := h
    refine ⟨Json.num n, _, ?_, unmarshalItem_envelope _ _ _ (jsonToInterface_int n habs), ?_⟩
    · simp only [serialize, jsonMarshal, toValidUTF8_goString]
    · have := floatToInt_intCast 64 n (by simp) (by simpa using hlo) (by simpa using hhi)
      show Except.ok (GoValue.int (floatToInt 64 (GoFloat.fin n))) = _
      rw [this]
  | int8 n =>
    obtain ⟨hlo, hhi⟩ := h
    have habs : |n| ≤ 2 ^ 53 := by rw [abs_le]; constructor <;> omega
    refine ⟨Json.num n, _, ?_, unmarshalItem_envelope _ _ _ (jsonToInterface_int n habs), ?_⟩
    · simp only [serialize, jsonMarshal, toValidUTF8_goString]
    · have := floatToInt_intCast 8 n (by simp) (by simpa using hlo) (by simpa using hhi)
      show Except.ok (GoValue.int8 (floatToInt 8 (GoFloat.fin n))) = _
      rw [this]
  | int16 n =>
    obtain ⟨hlo, hhi⟩ := h
    have habs : |n| ≤ 2 ^ 53 := by rw [abs_le]; constructor <;> omega
    refine ⟨Json.num n, _, ?_, unmarshalItem_envelope _ _ _ (jsonToInterface_int n habs), ?_⟩
    · simp only [serialize, jsonMarshal, toValidUTF8_goString]
    · have := floatToInt_intCast 16 n (by simp) (by simpa using hlo) (by simpa using hhi)
      show Except.ok (GoValue.int16 (floatToInt 16 (GoFloat.fin n))) = _
      rw [this]
  | int32 n =>
    obtain ⟨hlo, hhi⟩ := h
    have habs : |n| ≤ 2 ^ 53 := by rw [abs_le]; constructor <;> omega
    refine ⟨Json.num n, _, ?_, unmarshalItem_envelope _ _ _ (jsonToInterface_int n habs), ?_⟩
    · simp only [serialize, jsonMarshal, toValidUTF8_goString]
    · have := floatToInt_intCast 32 n (by simp) (by simpa using hlo) (by simpa using hhi)
      show Except.ok (GoValue.int32 (floatToInt 32 (GoFloat.fin n))) = _
      rw [this]
  | int64 n =>
    obtain ⟨hlo, hhi, habs⟩ := h
    refine ⟨Json.num n, _, ?_, unmarshalItem_envelope _ _ _ (jsonToInterface_int n habs), ?_⟩
    · simp only [serialize, jsonMarshal, toValidUTF8_goString]
    · have := floatToInt_intCast 64 n (by simp) (by simpa using hlo) (by simpa using hhi)
      show Except.ok (GoValue.int64 (floatToInt 64 (GoFloat.fin n))) = _
      rw [this]
  | float32 f => exact absurd h (by simp [IsExactScalar])
  | float64 f => exact absurd h (by simp [IsExactScalar])
  | string s =>
    obtain ⟨t, rfl⟩ := h
    refine ⟨Json.str t, _, ?_,
      unmarshalItem_envelope (Json.str t) _ (GoValue.string (goString t)) rfl, rfl⟩
    simp only [serialize, jsonMarshal, toValidUTF8_goString]
  | bool b =>
    refine ⟨Json.bool b, _, ?_,
      unmarshalItem_envelope (Json.bool b) _ (GoValue.bool b) rfl, rfl⟩
    simp only [serialize, jsonMarshal, toValidUTF8_goString]
  | slice xs => exact absurd h (by simp [IsExactScalar])
  | map kvs => exact absurd h (by simp [IsExactScalar])

/-- Witness of the amended C3 at the `int32` value `-7`. -/
theorem codec_round_trip_witness :
    ∃ value item,
      serialize (fun _ q => q) (GoValue.int32 (-7)) =
        Except.ok (Json.obj [("value", value), ("type", Json.str "int32")]) ∧
      deserialize (some (Json.obj [("value", value), ("type", Json.str "int32")])) =
        Except.ok item ∧
      castTableItemType item = Except.ok (GoValue.int32 (-7)) :=
  codec_round_trip (fun _ q => q) (GoValue.int32 (-7)) (by constructor <;> decide)

/-- C3, as stated, fails for a string: the Go string of the single byte
`0xff` (not valid UTF-8) is serialized (the formatting of floats playing no
part) to a document that decodes to the three bytes of U+FFFD. -/
theorem codec_round_trip_invalid_utf8 :
    ∃ doc item,
      serialize (fun _ q => q) (GoValue.string [0xff]) = Except.ok doc ∧
      deserialize (some doc) = Except.ok item ∧
      castTableItemType item = Except.ok (GoValue.string [0xEF, 0xBF, 0xBD]) ∧
      GoValue.string [0xEF, 0xBF, 0xBD] ≠ GoValue.string [0xff] :=
  ⟨_, _, rfl, rfl, rfl, by simp⟩

/-! ## Row iterators -/

/-- C4 on the code: a feature iterator whose only row holds a document that
does not decode, or an entity that does not scan, returns false from `Next`
with the failure stored in its field `err`, and its `Err()` is nil. -/
theorem featureIterator_Err_nil_after_failure :
    (∃ it, (newPostgresFeatureIterator undecodableRows).Next = Except.ok (false, it) ∧
      it.err = some (Error.json "cannot unmarshal into Go value of type postgresTableItem") ∧
      it.Err = none) ∧
    (∃ it, (newPostgresFeatureIterator unscannableRows).Next = Except.ok (false, it) ∧
      it.err = some (Error.backend "cannot scan NULL into *string") ∧
      it.Err = none) :=
  ⟨⟨_, rfl, rfl, rfl⟩, ⟨_, rfl, rfl, rfl⟩⟩

/-- C8, as stated, fails: on a document that is valid JSON and pairs the tag
`int` with a string, or with no value, `Next` of the feature iterator panics
(the type assertion to `float64` fails). -/
theorem featureIterator_Next_panics :
    (newPostgresFeatureIterator mismatchedRows).Next =
        Except.error (Panic.interfaceConversion "float64") ∧
      (newPostgresFeatureIterator valuelessRows).Next =
        Except.error (Panic.interfaceConversion "float64") :=
  ⟨rfl, rfl⟩

/-- A value of the kind its tag stands for is cast without a panic. -/
theorem castTableItemType_of_tagMatches (tag : GoString) (v : GoValue) (h : TagMatches tag v) :
    ∃ x, castTableItemType { Value := v, ItemType := tag } = Except.ok x := by
  obtain ⟨hnum, hstr, hbool⟩ := h
  unfold castTableItemType
  simp only []
  split_ifs with h1 h2 h3 h4 h5 h6 h7 h8 h9
  · obtain ⟨f, rfl⟩ := hnum (by simp [numericTags, h1])
    exact ⟨_, rfl⟩
  · obtain ⟨f, rfl⟩ := hnum (by simp [numericTags, h2])
    exact ⟨_, rfl⟩
  · obtain ⟨f, rfl⟩ := hnum (by simp [numericTags, h3])
    exact ⟨_, rfl⟩
  · obtain ⟨f, rfl⟩ := hnum (by simp [numericTags, h4])
    exact ⟨_, rfl⟩
  · obtain ⟨f, rfl⟩ := hnum (by simp [numericTags, h5])
    exact ⟨_, rfl⟩
  · obtain ⟨f, rfl⟩ := hnum (by simp [numericTags, h6])
    exact ⟨_, rfl⟩
  · exact ⟨_, rfl⟩
  · obtain ⟨x, rfl⟩ := hstr h8
    exact ⟨_, rfl⟩
  · obtain ⟨b, rfl⟩ := hbool h9
    exact ⟨_, rfl⟩
  · exact ⟨_, rfl⟩

/-- C8, amended: for a row that scans, `Next` of the feature iterator does not
panic when the value of the stored document is of the kind its tag stands
for: a document that does not decode into an item makes it return false with
the failure stored in the iterator's `err`, and any other one makes it return
true with the decoded record. -/
theorem featureIterator_Next_of_matching_tag (iter : postgresFeatureIterator)
    (row : RawFeatureRow) (rest : List RawFeatureRow) (entity : String) (ts : Timestamp)
    (hopen : iter.rows.closed = false) (hpending : iter.rows.pending = row :: rest)
    (hentity : row.entity = some entity) (hts : row.ts = some ts)
    (hmatch : ∀ item, deserialize row.value = Except.ok item →
      TagMatches item.ItemType item.Value) :
    (∃ err it2, deserialize row.value = Except.error err ∧
      iter.Next = Except.ok (false, it2) ∧ it2.err = some err) ∨
    (∃ item v it2, deserialize row.value = Except.ok item ∧
      castTableItemType item = Except.ok v ∧
      iter.Next = Except.ok (true, it2) ∧
      it2.Value = { Entity := entity, Value := v, TS := ts }) := by
  have hnext : iter.rows.Next =
      (true, { iter.rows with pending := rest, current := some row }) := by
    simp [FeatureRows.Next, hopen, hpending]
  have hscan : FeatureRows.Scan { iter.rows with pending := rest, current := some row } =
      Except.ok (entity, row.value, ts) := by
    simp [FeatureRows.Scan, hentity, hts]
  cases hd : deserialize row.value with
  | error err =>
    left
    refine ⟨err, { iter with
      rows := FeatureRows.Close { iter.rows with pending := rest, current := some row },
      err := some err }, rfl, ?_, rfl⟩
    simp only [postgresFeatureIterator.Next, hnext, hscan, hd]
  | ok item =>
    right
    obtain ⟨v, hv⟩ := castTableItemType_of_tagMatches item.ItemType item.Value (hmatch item hd)
    refine ⟨item, v, { iter with
      rows := { iter.rows with pending := rest, current := some row },
      currentValue := { Entity := entity, Value := v, TS := ts } }, rfl, hv, ?_, rfl⟩
    simp only [postgresFeatureIterator.Next, hnext, hscan, hd, hv]

/-- Witness of the amended C8 on the row of `matchingRows`. -/
theorem featureIterator_Next_of_matching_tag_witness :
    (∃ err it2, deserialize (some (Json.obj [("value", Json.num 31), ("type", Json.str "int")]))
        = Except.error err ∧
      (newPostgresFeatureIterator matchingRows).Next = Except.ok (false, it2) ∧
      it2.err = some err) ∨
    (∃ item v it2, deserialize (some (Json.obj [("value", Json.num 31),
        ("type", Json.str "int")])) = Except.ok item ∧
      castTableItemType item = Except.ok v ∧
      (newPostgresFeatureIterator matchingRows).Next = Except.ok (true, it2) ∧
      it2.Value = { Entity := "u1", Value := v, TS := 2 }) :=
  featureIterator_Next_of_matching_tag (newPostgresFeatureIterator matchingRows)
    ⟨some "u1", some (Json.obj [("value", Json.num 31), ("type", Json.str "int")]), some 2⟩
    [] "u1" 2 rfl rfl rfl rfl
    (fun item hitem => by
      have h31 : jsonToInterface (Json.num ((31 : Int) : ℚ)) =
          Except.ok (GoValue.float64 (GoFloat.fin ((31 : Int) : ℚ))) :=
        jsonToInterface_int 31 (by decide)
      have henv := unmarshalItem_envelope (Json.num ((31 : Int) : ℚ)) "int" _ h31
      have hitem2 : deserialize (some (Json.obj [("value", Json.num ((31 : Int) : ℚ)),
          ("type", Json.str "int")])) = Except.ok item := by
        simpa using hitem
      simp only [deserialize, henv, Except.ok.injEq] at hitem2
      subst hitem2
      refine ⟨fun _ => ⟨_, rfl⟩, fun h => ?_, fun h => ?_⟩
      · exact absurd h (by decide)
      · exact absurd h (by decide))

/-- Storing at the index just past a prefix replaces the element that
follows the prefix. -/
theorem set_length_append (xs : List GoValue) (a x : GoValue) (tl : List GoValue) :
    (xs ++ a :: tl).set xs.length x = xs ++ x :: tl := by
  induction xs with
  | nil => rfl
  | cons y ys ih => simp [ih]

/-- A well-formed document is parsed without a panic, into its value cast to
its type. -/
theorem parseTableValue_wellFormed (c : GoValue) (h : WellFormedDoc c) :
    ∃ x, parseTableValue c = Except.ok x ∧ DecodesTo c x := by
  obtain ⟨kvs, tag, rfl, htype, hmatch⟩ := h
  obtain ⟨x, hx⟩ := castTableItemType_of_tagMatches tag _ hmatch
  refine ⟨x, ?_, Or.inr ⟨kvs, tag, rfl, htype, hx⟩⟩
  simp only [parseTableValue, htype, hx]

/-- One turn of the loop on a feature column. -/
theorem trainingValuesLoop_feature (n i : Nat) (value : GoValue) (rest fv : List GoValue)
    (lab : GoValue) (hi : i < n) (h : value = GoValue.nil ∨ WellFormedDoc value) :
    ∃ x, DecodesTo value x ∧
      trainingValuesLoop n i (value :: rest) (fv, lab) =
        trainingValuesLoop n (i + 1) rest (fv.set i x, lab) := by
  rcases h with rfl | h
  · exact ⟨GoValue.nil, Or.inl ⟨rfl, rfl⟩, by simp [trainingValuesLoop, hi]⟩
  · obtain ⟨x, hx, hdec⟩ := parseTableValue_wellFormed value h
    obtain ⟨kvs, tag, rfl, _, _⟩ := h
    exact ⟨x, hdec, by simp [trainingValuesLoop, hi, hx]⟩

/-- One turn of the loop on the label column. -/
theorem trainingValuesLoop_label (n i : Nat) (value : GoValue) (rest fv : List GoValue)
    (lab : GoValue) (hi : ¬ i < n) (h : value = GoValue.nil ∨ WellFormedDoc value) :
    ∃ x, DecodesTo value x ∧
      trainingValuesLoop n i (value :: rest) (fv, lab) =
        trainingValuesLoop n (i + 1) rest (fv, x) := by
  rcases h with rfl | h
  · exact ⟨GoValue.nil, Or.inl ⟨rfl, rfl⟩, by simp [trainingValuesLoop, hi]⟩
  · obtain ⟨x, hx, hdec⟩ := parseTableValue_wellFormed value h
    obtain ⟨kvs, tag, rfl, _, _⟩ := h
    exact ⟨x, hdec, by simp [trainingValuesLoop, hi, hx]⟩

/-- The loop over the columns that remain, the columns before them stored. -/
theorem trainingValuesLoop_decodes (label lab0 : GoValue)
    (hlabel : label = GoValue.nil ∨ WellFormedDoc label) (fs : List GoValue) :
    ∀ (stored : List GoValue), (∀ c ∈ fs, c = GoValue.nil ∨ WellFormedDoc c) →
      ∃ xs y, List.Forall₂ DecodesTo fs xs ∧ DecodesTo label y ∧
        trainingValuesLoop (stored.length + fs.length) stored.length (fs ++ [label])
          (stored ++ List.replicate fs.length GoValue.nil, lab0) = Except.ok (stored ++ xs, y) := by
  induction fs with
  | nil =>
    intro stored _
    obtain ⟨y, hy, hstep⟩ := trainingValuesLoop_label (stored.length + 0) stored.length label []
      (stored ++ []) lab0 (by simp) hlabel
    refine ⟨[], y, List.Forall₂.nil, hy, ?_⟩
    simp only [List.length_nil, List.nil_append, List.replicate_zero]
    rw [hstep]
    rfl
  | cons c cs ih =>
    intro stored hwf
    obtain ⟨x, hx, hstep⟩ := trainingValuesLoop_feature (stored.length + (c :: cs).length)
      stored.length c (cs ++ [label])
      (stored ++ List.replicate (c :: cs).length GoValue.nil) lab0
      (by simp) (hwf c (List.mem_cons_self _ _))
    obtain ⟨xs, y, hxs, hy, hloop⟩ := ih (stored ++ [x])
      (fun d hd => hwf d (List.mem_cons_of_mem _ hd))
    refine ⟨x :: xs, y, List.Forall₂.cons hx hxs, hy, ?_⟩
    rw [List.cons_append, hstep]
    have hset : (stored ++ List.replicate (c :: cs).length GoValue.nil).set stored.length x =
        (stored ++ [x]) ++ List.replicate cs.length GoValue.nil := by
      rw [List.length_cons, List.replicate_succ, set_length_append]
      simp
    have hlen : stored.length + (c :: cs).length = (stored ++ [x]).length + cs.length := by
      simp
      omega
    have hidx : stored.length + 1 = (stored ++ [x]).length := by simp
    rw [hset, hlen, hidx, hloop]
    simp

/-- C5: for a raw row of `n + 1` columns whose non-NULL columns are
well-formed value documents, `Next` of the training-set iterator returns true
and leaves `Features()` of length exactly `n`, holding in order the first `n`
columns, and `Label()` the last column, a NULL column as `nil` and any other
one as its value cast by `castTableItemType`. -/
theorem trainingIterator_Next_decodes (it : postgresTrainingRowsIterator)
    (features : List GoValue) (label : GoValue) (rest : List (Except Error (List GoValue)))
    (hopen : it.rows.closed = false)
    (hpending : it.rows.pending = Except.ok (features ++ [label]) :: rest)
    (hwf : ∀ c ∈ features ++ [label], c = GoValue.nil ∨ WellFormedDoc c) :
    ∃ it2, it.Next = Except.ok (true, it2) ∧
      it2.Features.length = features.length ∧
      List.Forall₂ DecodesTo features it2.Features ∧
      DecodesTo label it2.Label := by
  have hnext : it.rows.Next = (true, { it.rows with
      pending := rest, current := some (Except.ok (features ++ [label])) }) := by
    simp [TrainingRows.Next, hopen, hpending]
  have hvalues : TrainingRows.Values { it.rows with
      pending := rest, current := some (Except.ok (features ++ [label])) } =
      Except.ok (features ++ [label]) := rfl
  obtain ⟨xs, y, hxs, hy, hloop⟩ := trainingValuesLoop_decodes label GoValue.nil
    (hwf label (by simp)) features []
    (fun c hc => hwf c (List.mem_append_left _ hc))
  simp only [List.length_nil, Nat.zero_add, List.nil_append] at hloop
  refine ⟨{ it with
    rows := { it.rows with pending := rest, current := some (Except.ok (features ++ [label])) },
    currentFeatures := xs, currentLabel := y }, ?_, ?_, hxs, hy⟩
  · obtain ⟨a, tl, hcons⟩ : ∃ a tl, features ++ [label] = a :: tl := by
      cases features with
      | nil => exact ⟨label, [], rfl⟩
      | cons f fs => exact ⟨f, fs ++ [label], rfl⟩
    have hlen : (a :: tl).length - 1 = features.length := by
      rw [← hcons]
      simp
    simp only [postgresTrainingRowsIterator.Next, hnext, hvalues]
    rw [hcons] at hloop ⊢
    simp only [hlen, hloop]
  · exact (List.Forall₂.length_eq hxs).symm

/-- Witness of C5 on the row of `trainingRowsExample`. -/
theorem trainingIterator_Next_decodes_witness :
    ∃ it2, (newPostgresTrainingSetIterator trainingRowsExample).Next = Except.ok (true, it2) ∧
      it2.Features.length = 2 ∧
      List.Forall₂ DecodesTo
        [GoValue.nil, GoValue.map [(goString "type", GoValue.string (goString "int")),
          (goString "value", GoValue.float64 (GoFloat.fin 31))]] it2.Features ∧
      DecodesTo (GoValue.map [(goString "type", GoValue.string (goString "bool")),
        (goString "value", GoValue.bool true)]) it2.Label :=
  trainingIterator_Next_decodes (newPostgresTrainingSetIterator trainingRowsExample)
    [GoValue.nil, GoValue.map [(goString "type", GoValue.string (goString "int")),
      (goString "value", GoValue.float64 (GoFloat.fin 31))]]
    (GoValue.map [(goString "type", GoValue.string (goString "bool")),
      (goString "value", GoValue.bool true)]) [] rfl rfl
    (fun c hc => by
      simp only [List.cons_append, List.nil_append, List.mem_cons, List.mem_singleton,
        List.not_mem_nil, or_false] at hc
      rcases hc with rfl | rfl | rfl
      · exact Or.inl rfl
      · exact Or.inr ⟨_, goString "int", rfl, rfl, fun _ => ⟨_, rfl⟩,
          fun h => absurd h (by decide), fun h => absurd h (by decide)⟩
      · exact Or.inr ⟨_, goString "bool", rfl, rfl,
          fun h => absurd h (by decide), fun h => absurd h (by decide), fun _ => ⟨_, rfl⟩⟩)

/-- The row of `trainingRowsExample`, evaluated: the NULL column is returned
as `nil`, not as a zero value. -/
theorem trainingIterator_Next_example :
    ∃ it2, (newPostgresTrainingSetIterator trainingRowsExample).Next = Except.ok (true, it2) ∧
      it2.Features = [GoValue.nil, GoValue.int 31] ∧ it2.Label = GoValue.bool true :=
  ⟨_, rfl, rfl, rfl⟩

/-! ## Materialization -/

/-- Keeping the rows numbered 1 keeps the first row only. -/
theorem rank_one_eq_take (l : List ResourceRow) :
    ((((l.enumFrom 1).map (fun p => (p.2, p.1))).filter (fun p => decide (p.2 = 1))).map
      Prod.fst) = l.take 1 := by
  cases l with
  | nil => rfl
  | cons a t =>
    have hrest : ((t.enumFrom 2).map (fun p : Nat × ResourceRow => (p.2, p.1))).filter
        (fun p => decide (p.2 = 1)) = [] := by
      rw [List.filter_eq_nil_iff]
      intro p hp
      obtain ⟨q, hq, rfl⟩ := List.mem_map.mp hp
      have := List.le_fst_of_mem_enumFrom hq
      simp only [decide_eq_true_eq]
      omega
    simp only [List.enumFrom_cons, List.map_cons, List.filter_cons, List.take_succ_cons,
      List.take_zero]
    simp [hrest]

/-- The rows the materialization query selects: per entity of the table, in
the order of `dedup`, the first of its rows sorted latest first. -/
theorem latestPerEntity_eq (rows : List ResourceRow) :
    latestPerEntity rows = (rows.map (fun r => r.entity)).dedup.flatMap (fun e =>
      (orderByTsDesc (rows.filter (fun r => decide (r.entity = e)))).take 1) := by
  unfold latestPerEntity rowNumberByEntity
  rw [List.filter_flatMap, List.map_flatMap]
  congr 1
  funext e
  exact rank_one_eq_take _

/-- The first of the rows of an entity that occurs in the table, sorted latest
first: a row of the table, of that entity, with its greatest timestamp. -/
theorem latest_of_entity (rows : List ResourceRow) (e : String)
    (he : e ∈ rows.map (fun r => r.entity)) :
    ∃ r, (orderByTsDesc (rows.filter (fun r => decide (r.entity = e)))).take 1 = [r] ∧
      r.entity = e ∧ r ∈ rows ∧ ∀ r2 ∈ rows, r2.entity = e → r2.ts ≤ r.ts := by
  haveI : IsTotal ResourceRow (fun a b => b.ts ≤ a.ts) := ⟨fun a b => le_total b.ts a.ts⟩
  haveI : IsTrans ResourceRow (fun a b => b.ts ≤ a.ts) :=
    ⟨fun _ _ _ hab hbc => le_trans hbc hab⟩
  have hmem : ∀ r, r ∈ orderByTsDesc (rows.filter (fun r => decide (r.entity = e))) ↔
      (r ∈ rows ∧ r.entity = e) := by
    intro r
    simp [orderByTsDesc, List.mem_insertionSort, List.mem_filter]
  have hsorted : List.Sorted (fun a b : ResourceRow => b.ts ≤ a.ts)
      (orderByTsDesc (rows.filter (fun r => decide (r.entity = e)))) :=
    List.sorted_insertionSort _ _
  obtain ⟨r0, hr0, hr0e⟩ := List.mem_map.mp he
  cases hs : orderByTsDesc (rows.filter (fun r => decide (r.entity = e))) with
  | nil =>
    have := (hmem r0).mpr ⟨hr0, hr0e⟩
    rw [hs] at this
    cases this
  | cons r rest =>
    rw [hs] at hsorted
    have hr := (hmem r).mp (by rw [hs]; exact List.mem_cons_self _ _)
    refine ⟨r, rfl, hr.2, hr.1, fun r2 h2 h2e => ?_⟩
    have h2m := (hmem r2).mpr ⟨h2, h2e⟩
    rw [hs] at h2m
    rcases List.mem_cons.mp h2m with h | h
    · rw [h]
    · exact List.rel_of_sorted_cons hsorted r2 h

/-- Lists of one element each, concatenated over a list, pair off with it. -/
theorem flatMap_singletons (P : String → ResourceRow → Prop) (f : String → List ResourceRow)
    (es : List String) (h : ∀ e ∈ es, ∃ r, f e = [r] ∧ P e r) :
    List.Forall₂ P es (es.flatMap f) := by
  induction es with
  | nil => exact List.Forall₂.nil
  | cons e rest ih =>
    obtain ⟨r, hr, hp⟩ := h e (List.mem_cons_self _ _)
    rw [List.flatMap_cons, hr]
    exact List.Forall₂.cons hp (ih (fun x hx => h x (List.mem_cons_of_mem _ hx)))

/-- The rows the materialization query selects hold exactly one row per entity
of the table, and that row is a row of the table with the greatest timestamp
of its entity. -/
theorem latestPerEntity_spec (rows : List ResourceRow) :
    ((latestPerEntity rows).map (fun r => r.entity)).Nodup ∧
    (∀ e, e ∈ (latestPerEntity rows).map (fun r => r.entity) ↔
      e ∈ rows.map (fun r => r.entity)) ∧
    (∀ r ∈ latestPerEntity rows, r ∈ rows ∧
      ∀ r2 ∈ rows, r2.entity = r.entity → r2.ts ≤ r.ts) := by
  have hpair := flatMap_singletons
    (fun e r => r.entity = e ∧ r ∈ rows ∧ ∀ r2 ∈ rows, r2.entity = e → r2.ts ≤ r.ts)
    (fun e => (orderByTsDesc (rows.filter (fun r => decide (r.entity = e)))).take 1)
    (rows.map (fun r => r.entity)).dedup
    (fun e he => latest_of_entity rows e (List.mem_dedup.mp he))
  rw [← latestPerEntity_eq] at hpair
  have hents : (latestPerEntity rows).map (fun r => r.entity) =
      (rows.map (fun r => r.entity)).dedup := by
    have h2 : List.Forall₂ (fun e r => e = r) (rows.map (fun r => r.entity)).dedup
        ((latestPerEntity rows).map (fun r => r.entity)) := by
      rw [List.forall₂_map_right_iff]
      exact hpair.imp (fun _ _ h => h.1.symm)
    have h3 : List.Forall₂ (fun (a b : String) => a = b) = Eq := List.forall₂_eq_eq_eq
    rw [h3] at h2
    exact h2.symm
  refine ⟨?_, ?_, ?_⟩
  · rw [hents]
    exact List.nodup_dedup _
  · intro e
    rw [hents, List.mem_dedup]
  · intro r hr
    have hall : ∀ r ∈ latestPerEntity rows, ∃ e, r.entity = e ∧ r ∈ rows ∧
        ∀ r2 ∈ rows, r2.entity = e → r2.ts ≤ r.ts := by
      clear hents hr
      generalize latestPerEntity rows = snap at hpair
      generalize (rows.map (fun r => r.entity)).dedup = es at hpair
      induction hpair with
      | nil => intro r hr; cases hr
      | cons hp _ ih =>
        intro r hr
        rcases List.mem_cons.mp hr with h | h
        · rw [h]
          exact ⟨_, hp⟩
        · exact ih r h
    obtain ⟨e, he, hin, hmax⟩ := hall r hr
    exact ⟨hin, fun r2 h2 h2e => hmax r2 h2 (h2e.trans he)⟩

/-- Replacing the table registered under a name. -/
theorem lookup_replace (c : Conn) (name : String) (t0 t : Table)
    (h : c.lookup name = some t0) : (c.replace name t).lookup name = some t := by
  simp only [Conn.lookup, Conn.replace] at h ⊢
  generalize c.tables = ts at h
  induction ts with
  | nil => simp at h
  | cons e rest ih =>
    obtain ⟨k, v⟩ := e
    by_cases hk : k = name
    · subst hk
      simp [List.lookup_cons]
    · have hb : (name == k) = false := by simpa using Ne.symm hk
      simp only [List.lookup_cons, hb] at h
      simp only [List.map_cons, hk, if_false, List.lookup_cons, hb]
      exact ih h

/-- The first build of a materialization:
when the materialization table does not exist yet, `CreateMaterialization`
succeeds and the table it leaves holds exactly one row per entity of the
source, a row of the source with the greatest timestamp of its entity. -/
theorem CreateMaterialization_first (store : Conn) (id : ResourceID) (u : Bool)
    (rows : List ResourceRow)
    (hty : id.Type_ = OfflineResourceType.Feature) (hup : store.fault = none)
    (hsrc : store.lookup (getResourceTableName id) = some (Table.resource u rows))
    (hnew : store.lookup (getMaterializationTableName id.Name) = none) :
    ∃ m store2 snap,
      CreateMaterialization store id = (Except.ok m, store2) ∧
      store2.lookup (getMaterializationTableName id.Name) = some (Table.resource false snap) ∧
      (snap.map (fun r => r.entity)).Nodup ∧
      (∀ e, e ∈ snap.map (fun r => r.entity) ↔ e ∈ rows.map (fun r => r.entity)) ∧
      (∀ r ∈ snap, r ∈ rows ∧ ∀ r2 ∈ rows, r2.entity = r.entity → r2.ts ≤ r.ts) := by
  have hget : getPostgresResourceTable store id =
      Except.ok { name := getResourceTableName id } := by
    simp [getPostgresResourceTable, tableExists, ResourceID.check, hty,
      Conn.scanTableExists, hup, hsrc]
  let mat := getMaterializationTableName id.Name
  let src := getResourceTableName id
  let sent1 : Conn := { store with executed := store.executed ++
    [Stmt.createEmptyCopy (sanitize mat) (sanitize src)] }
  let store1 : Conn := sent1.create mat (Table.resource false [])
  let sent2 : Conn := { store1 with executed := store1.executed ++
    [Stmt.insertLatest (sanitize mat) (sanitize src)] }
  let store2 : Conn := sent2.replace mat (Table.resource false ([] ++ latestPerEntity rows))
  have hrun1 : sent1.run (Stmt.createEmptyCopy (sanitize mat) (sanitize src)) =
      Except.ok store1 := by
    have h1 : sent1.lookup (sanitize src).name = some (Table.resource u rows) := hsrc
    have h2 : sent1.lookup (sanitize mat).name = none := hnew
    simp only [Conn.run, h1, h2]
    rfl
  have hsrc1 : sent2.lookup (sanitize src).name = some (Table.resource u rows) := by
    show (store.tables ++ [(mat, Table.resource false [])]).lookup src = _
    rw [List.lookup_append]
    have : store.tables.lookup src = some (Table.resource u rows) := hsrc
    rw [this]
    rfl
  have hmat1 : sent2.lookup (sanitize mat).name = some (Table.resource false []) :=
    lookup_create sent1 mat _ hnew
  have hrun2 : sent2.run (Stmt.insertLatest (sanitize mat) (sanitize src)) =
      Except.ok store2 := by
    simp only [Conn.run, hsrc1, hmat1]
    rfl
  have hspec := latestPerEntity_spec rows
  refine ⟨{ id := id.Name, tableName := mat }, store2, latestPerEntity rows, ?_, ?_,
    hspec.1, hspec.2.1, hspec.2.2⟩
  · have hne : ¬ id.Type_ ≠ OfflineResourceType.Feature := by simp [hty]
    simp only [CreateMaterialization, if_neg hne, hget]
    rw [Exec_of_run store _ store1 hup hrun1]
    simp only []
    rw [Exec_of_run store1 _ store2 hup hrun2]
  · exact lookup_replace sent2 mat _ _ hmat1

/-- The first build on `ageStore`. -/
theorem CreateMaterialization_first_witness :
    ∃ m store2 snap,
      CreateMaterialization ageStore ⟨"age", "v1", OfflineResourceType.Feature⟩ =
        (Except.ok m, store2) ∧
      store2.lookup (getMaterializationTableName "age") = some (Table.resource false snap) ∧
      (snap.map (fun r => r.entity)).Nodup ∧
      (∀ e, e ∈ snap.map (fun r => r.entity) ↔
        e ∈ [(⟨"u1", Json.num 30, 1⟩ : ResourceRow), ⟨"u1", Json.num 31, 2⟩].map
          (fun r => r.entity)) ∧
      (∀ r ∈ snap, r ∈ [(⟨"u1", Json.num 30, 1⟩ : ResourceRow), ⟨"u1", Json.num 31, 2⟩] ∧
        ∀ r2 ∈ [(⟨"u1", Json.num 30, 1⟩ : ResourceRow), ⟨"u1", Json.num 31, 2⟩],
          r2.entity = r.entity → r2.ts ≤ r.ts) :=
  CreateMaterialization_first ageStore ⟨"age", "v1", OfflineResourceType.Feature⟩ true
    [⟨"u1", Json.num 30, 1⟩, ⟨"u1", Json.num 31, 2⟩] rfl rfl rfl rfl

/-! ## What the sibling paths do -/

/-- The training-set iterator reports its failures: once `Next` has returned
false on an iterator without an earlier error, `Err()` is non-nil exactly
when a row was fetched and reading its values failed. -/
theorem trainingIterator_Err_after_false (it it2 : postgresTrainingRowsIterator)
    (herr : it.err = none) (hnext : it.Next = Except.ok (false, it2)) :
    it2.Err ≠ none ↔
      ∃ rows e, it.rows.Next = (true, rows) ∧ rows.Values = Except.error e := by
  unfold postgresTrainingRowsIterator.Next at hnext
  rcases hr : it.rows.Next with ⟨b, rows⟩
  rw [hr] at hnext
  cases b with
  | false =>
    simp only [Except.ok.injEq, Prod.mk.injEq, true_and] at hnext
    subst hnext
    simp [postgresTrainingRowsIterator.Err, herr]
  | true =>
    simp only [] at hnext
    cases hv : rows.Values with
    | error e =>
      rw [hv] at hnext
      simp only [Except.ok.injEq, Prod.mk.injEq, true_and] at hnext
      subst hnext
      simp [postgresTrainingRowsIterator.Err, hv]
    | ok values =>
      rw [hv] at hnext
      exfalso
      cases values with
      | nil => simp at hnext
      | cons a tl =>
        simp only [] at hnext
        split at hnext
        · cases hnext
        · simp at hnext

/-- For a TrainingSet identifier whose training-set table the catalog does not
register, `GetResourceTable` fails with `TableNotFound`. -/
theorem GetResourceTable_trainingSet_absent (store : Conn) (id : ResourceID)
    (hty : id.Type_ = OfflineResourceType.TrainingSet) (hup : store.fault = none)
    (habsent : store.lookup (getTrainingSetName id) = none) :
    GetResourceTable store id = Except.error (Error.TableNotFound id.Name id.Variant) := by
  simp [GetResourceTable, getPostgresResourceTable, tableExists, ResourceID.check, hty,
    Conn.scanTableExists, hup, habsent]

end Provider
